import Mathlib

/-!
Verification development for the procedural-spaceship generator.

This file is a shallow embedding, in Lean 4, of the generative core of the
repository: the seeded random number generator (src/utilities/random.ts), the
thruster layout algorithms (components/thrusterLayouts.js), the thruster
section generator (src/components/thrusters.js), the engine block generator
(engineBlock.ts), the cargo section generator (cargoSection.ts), the command
deck generator (commandDeck.ts) and the ship assembler (src/shipgen.ts).

JavaScript numbers are modelled as real numbers; machine integers produced by
the string hash are modelled as integers with explicit wrapping at 2^32.  The
chaotic trigonometric map used by the generator, x = fract (sin seed * 10000),
is not expressible by an executable closed form, so the pseudo-random stream
is modelled by an arbitrary function f from integer states to real draws; the
SeededRandom contract guarantees every draw lies in the interval from 0
(inclusive) to 1 (exclusive), which appears below as the ValidStream
hypothesis.  All other code is translated operation by operation.
-/

namespace Spaceship

open Real

/-! ### SeededRandom (src/utilities/random.ts)

The constructor hashes the seed string: for each character,
hash = ((hash << 5) - hash) + charCode, then hash = hash & hash, which in
JavaScript truncates to a signed 32-bit integer.  Finally Math.abs is taken. -/

/-- Truncation of an integer to a signed 32-bit integer, the effect of the
JavaScript bitwise operations used in hashCode. -/
def toInt32 (x : ℤ) : ℤ := (x + 2 ^ 31) % 2 ^ 32 - 2 ^ 31

/-- One step of the hash loop: hash = ((hash << 5) - hash) + char, truncated
to 32 bits by hash = hash & hash.  The shift itself also truncates. -/
def hashStep (h : ℤ) (c : ℕ) : ℤ := toInt32 (toInt32 (h * 32) - h + c)

/-- The string hash of SeededRandom: fold hashStep over the character codes
starting from 0, then take the absolute value.  Character codes are modelled
by Unicode code points (identical to JavaScript charCodeAt on the basic
multilingual plane). -/
def hashCode (s : String) : ℤ := |s.data.foldl (fun h c => hashStep h c.toNat) 0|

/-- The state of the pseudo-random stream: the trigonometric map f (modelling
fract (sin n * 10000)) together with the current integer seed.  random()
returns f applied to the seed and increments the seed. -/
structure Rng where
  f : ℤ → ℝ
  seed : ℤ

/-- random(): draw the current value and advance the internal counter. -/
noncomputable def Rng.rand (r : Rng) : ℝ × Rng := (r.f r.seed, ⟨r.f, r.seed + 1⟩)

/-- range(min, max) = min + random() * (max - min). -/
noncomputable def Rng.range (r : Rng) (lo hi : ℝ) : ℝ × Rng :=
  let p := r.rand
  (lo + p.1 * (hi - lo), p.2)

/-- int(min, max) = floor (range (min, max + 1)), an inclusive integer draw. -/
noncomputable def Rng.int (r : Rng) (lo hi : ℤ) : ℤ × Rng :=
  let p := r.range lo ((hi : ℝ) + 1)
  (⌊p.1⌋, p.2)

/-- The SeededRandom contract: every draw of the stream lies in [0, 1). -/
def ValidStream (f : ℤ → ℝ) : Prop := ∀ n : ℤ, 0 ≤ f n ∧ f n < 1

theorem ValidStream.nonneg {f : ℤ → ℝ} (h : ValidStream f) (n : ℤ) : 0 ≤ f n := (h n).1

theorem ValidStream.lt_one {f : ℤ → ℝ} (h : ValidStream f) (n : ℤ) : f n < 1 := (h n).2

/-- A ranged draw from a valid stream lies between its bounds (half open when
the bounds are distinct, degenerate when they coincide). -/
theorem range_mem {f : ℤ → ℝ} (hf : ValidStream f) (s : ℤ) {lo hi : ℝ} (hlohi : lo ≤ hi) :
    lo ≤ (Rng.range ⟨f, s⟩ lo hi).1 ∧ (Rng.range ⟨f, s⟩ lo hi).1 ≤ hi := by
  simp only [Rng.range, Rng.rand]
  constructor
  · nlinarith [(hf s).1]
  · nlinarith [(hf s).1, (hf s).2]

/-- A ranged draw from a valid stream is strictly below its upper bound when
the bounds are distinct. -/
theorem range_lt {f : ℤ → ℝ} (hf : ValidStream f) (s : ℤ) {lo hi : ℝ} (hlohi : lo < hi) :
    (Rng.range ⟨f, s⟩ lo hi).1 < hi := by
  simp only [Rng.range, Rng.rand]
  nlinarith [(hf s).1, (hf s).2]

/-- An integer draw from a valid stream is inclusive in both bounds. -/
theorem int_mem {f : ℤ → ℝ} (hf : ValidStream f) (s : ℤ) {lo hi : ℤ} (hlohi : lo ≤ hi) :
    lo ≤ (Rng.int ⟨f, s⟩ lo hi).1 ∧ (Rng.int ⟨f, s⟩ lo hi).1 ≤ hi := by
  simp only [Rng.int, Rng.range, Rng.rand]
  have h0 := (hf s).1
  have h1 := (hf s).2
  have hcast : (lo : ℝ) ≤ hi := by exact_mod_cast hlohi
  constructor
  · have : (lo : ℝ) ≤ lo + f s * ((hi : ℝ) + 1 - lo) := by nlinarith
    exact Int.le_floor.mpr this
  · have hfl : ⌊(lo : ℝ) + f s * ((hi : ℝ) + 1 - lo)⌋ < hi + 1 :=
      Int.floor_lt.mpr (by push_cast; nlinarith)
    omega

/-! ### Thruster layout algorithms (components/thrusterLayouts.js) -/

/-- A 2D placement position in the thruster plane. -/
abbrev Point : Type := ℝ × ℝ

/-- A point on the circle of radius r at angle theta. -/
noncomputable def circlePoint (r θ : ℝ) : Point := (r * Real.cos θ, r * Real.sin θ)

/-- k points evenly spaced on the circle of radius r, starting at angle
-pi/2 plus the given phase: the emission order of every ring in
radialThrusterLayout. -/
noncomputable def ringPoints (r : ℝ) (k : ℕ) (phase : ℝ) : List Point :=
  (List.range k).map fun (i : ℕ) => circlePoint r ((i : ℝ) / k * (2 * π) - π / 2 + phase)

/-- The outer-ring loop of radialThrusterLayout.  Each pass computes the ring
capacity floor (ring circumference / (size * 1.1)), places
min (capacity, enginesLeft) engines (one fewer when exactly one engine would
be left over), and moves the radius outward by size * 1.15.  The source loop
makes no progress when the computed ring count is not positive (impossible
for a positive thruster size, as proved below); the embedding returns the
points placed so far in that degenerate case so that the function is total. -/
noncomputable def ringCount (s baseR : ℝ) (left : ℕ) : ℕ :=
  (let maxThisRing : ℤ := ⌊2 * π * baseR / (s * 1.1)⌋
   let k0 : ℤ := min maxThisRing (left : ℤ)
   if (left : ℤ) - maxThisRing = 1 then k0 - 1 else k0).toNat

noncomputable def radialLoop (s : ℝ) (left : ℕ) (baseR : ℝ) (ring : ℕ) : List Point :=
  if left = 0 then []
  else
    if _h : ringCount s baseR left = 0 then []
    else
      ringPoints baseR (ringCount s baseR left)
          (if ring % 2 = 1 then π / (ringCount s baseR left) else 0) ++
        radialLoop s (left - ringCount s baseR left) (baseR + s * 1.15) (ring + 1)
termination_by left
decreasing_by
  have hk : 0 < ringCount s baseR left := Nat.pos_of_ne_zero _h
  omega

/-- radialThrusterLayout: an optional center cluster (all engines when the
count is at most 4, otherwise 0 to count/3 of them), then concentric rings
outward until every engine is placed. -/
noncomputable def radialThrusterLayout (thrusterCount : ℕ) (thrusterSize : ℝ) (rng : Rng) :
    List Point × Rng :=
  let maxCenterCount : ℤ := if thrusterCount ≤ 4 then thrusterCount else (thrusterCount / 3 : ℕ)
  let minCenterCount : ℤ := if thrusterCount ≤ 4 then thrusterCount else 0
  let p := rng.int minCenterCount maxCenterCount
  let ccn : ℕ := p.1.toNat
  let centerRadius : ℝ :=
    if 2 ≤ ccn then ((ccn : ℝ) + 1.6) * thrusterSize / (2 * π) else 0
  let cluster : List Point :=
    if ccn = 1 then [((0 : ℝ), (0 : ℝ))]
    else if 2 ≤ ccn then ringPoints centerRadius ccn 0
    else []
  (cluster ++ radialLoop thrusterSize (thrusterCount - ccn) (centerRadius + thrusterSize * 1.15) 0,
    p.2)

/-- findEvenGridConfigurations: every factorization rows * cols of the engine
count with rows from 2 up to the square root and cols at least 2, emitted as
(cols, rows) and, when distinct, also (rows, cols).  The JavaScript loop bound
rows <= sqrt engines is the integer condition rows * rows <= engines. -/
def findEvenGridConfigurations (engines : ℕ) : List (ℕ × ℕ) :=
  ((List.range' 2 engines).filter fun rows => rows * rows ≤ engines).flatMap fun rows =>
    if engines % rows = 0 then
      let cols := engines / rows
      if 2 ≤ cols then
        (cols, rows) :: (if rows ≠ cols then [(rows, cols)] else [])
      else []
    else []

/-- The double loop body of gridThrusterLayout: a centered cols-by-rows
rectangular lattice with the given spacing, emitted row-major with
startX = -((cols - 1) / 2) * spacing and startY = -((rows - 1) / 2) * spacing. -/
noncomputable def gridLatticePoints (cols rows : ℕ) (spacing : ℝ) : List Point :=
  (List.range rows).flatMap fun (row : ℕ) =>
    (List.range cols).map fun (col : ℕ) =>
      (-(((cols : ℝ) - 1) / 2) * spacing + (col : ℝ) * spacing,
       -(((rows : ℝ) - 1) / 2) * spacing + (row : ℝ) * spacing)

/-- gridThrusterLayout: null when no even grid configuration exists, otherwise
a random configuration realized as a centered rectangular lattice with spacing
thrusterSize * 1.3, emitted row-major. -/
noncomputable def gridThrusterLayout (thrusterCount : ℕ) (thrusterSize : ℝ) (rng : Rng) :
    Option (List Point) × Rng :=
  let configs := findEvenGridConfigurations thrusterCount
  if configs.isEmpty then (none, rng)
  else
    let p := rng.int 0 ((configs.length : ℤ) - 1)
    let cfg := configs.getD p.1.toNat (0, 0)
    (some (gridLatticePoints cfg.1 cfg.2 (thrusterSize * 1.3)), p.2)

/-- findStaggeredConfigurations: for every odd row count n from 3 up to
floor ((2 * engines - 1) / 3), when 2 * engines - n - 1 is a positive multiple
of 2 * n with quotient k, the row-length list alternating k+1, k, k+1, ... -/
def findStaggeredConfigurations (engines : ℕ) : List (List ℕ) :=
  let maxRows : ℕ := (2 * engines - 1) / 3
  (List.range' 3 ((maxRows - 1) / 2) 2).flatMap fun n =>
    let numerator : ℤ := 2 * (engines : ℤ) - n - 1
    let denominator : ℤ := 2 * (n : ℤ)
    if 0 ≤ numerator ∧ numerator % denominator = 0 then
      let k : ℤ := numerator / denominator
      if 0 < k then
        [(List.range n).map fun row => if row % 2 = 0 then k.toNat + 1 else k.toNat]
      else []
    else []

/-- The vertical orientation of offsetGridThrusterLayout: the row-length list
stacks along y, each row centered along x. -/
noncomputable def staggeredPointsVertical (config : List ℕ) (spacing : ℝ) : List Point :=
  (List.range config.length).flatMap fun (row : ℕ) =>
    (List.range (config.getD row 0)).map fun (col : ℕ) =>
      (-(((config.getD row 0 : ℝ) - 1) / 2) * spacing + (col : ℝ) * spacing,
       -(((config.length : ℝ) - 1) / 2) * spacing + (row : ℝ) * spacing)

/-- The horizontal orientation of offsetGridThrusterLayout: the row-length
list stacks along x, each column centered along y. -/
noncomputable def staggeredPointsHorizontal (config : List ℕ) (spacing : ℝ) : List Point :=
  (List.range config.length).flatMap fun (col : ℕ) =>
    (List.range (config.getD col 0)).map fun (row : ℕ) =>
      (-(((config.length : ℝ) - 1) / 2) * spacing + (col : ℝ) * spacing,
       -(((config.getD col 0 : ℝ) - 1) / 2) * spacing + (row : ℝ) * spacing)

/-- offsetGridThrusterLayout: null when no staggered configuration exists,
otherwise a random configuration laid out with spacing thrusterSize * 1.3,
in a randomly chosen orientation (rows stacked vertically or horizontally). -/
noncomputable def offsetGridThrusterLayout (thrusterCount : ℕ) (thrusterSize : ℝ) (rng : Rng) :
    Option (List Point) × Rng :=
  let configs := findStaggeredConfigurations thrusterCount
  if configs.isEmpty then (none, rng)
  else
    let p := rng.int 0 ((configs.length : ℤ) - 1)
    let config := configs.getD p.1.toNat []
    let q := p.2.rand
    let positions : List Point :=
      if q.1 < 0.5 then staggeredPointsVertical config (thrusterSize * 1.3)
      else staggeredPointsHorizontal config (thrusterSize * 1.3)
    (some positions, q.2)

/-! ### Thruster section generator (src/components/thrusters.js) -/

/-- The structural output of makeThrusters.  drawnPower is the power first
drawn from the valid range; thrusterPower is the same local variable after the
source renormalizes it to totalShipMass / thrusterCount.  minZ is the minimum
local z-extent of the emitted geometry: each nozzle cylinder spans
[0, thrusterDepth] and each glow cone spans
[-1.25 * thrusterSize, 0.25 * thrusterSize]. -/
structure ThrusterOut where
  drawnPower : ℝ
  thrusterPower : ℝ
  thrusterCount : ℤ
  thrusterSize : ℝ
  isRadial : Bool
  thrusterPositions : List Point
  length : ℝ
  minZ : ℝ

/-- The layout-selection branch of makeThrusters (lines 30-57): large counts
try offset grid behind a coin flip, then fall through to the grid preference,
moderate counts try grid behind a coin flip, small counts always go radial.
The JavaScript condition chain evaluates its random draws lazily, which is
mirrored exactly here. -/
noncomputable def selectThrusterLayout (thrusterCount : ℕ) (thrusterSize : ℝ) (rng : Rng) :
    (List Point × Bool) × Rng :=
  if 7 ≤ thrusterCount then
    let c1 := rng.rand
    if c1.1 < 0.5 then
      let off := offsetGridThrusterLayout thrusterCount thrusterSize c1.2
      match off.1 with
      | some ps => ((ps, false), off.2)
      | none =>
        let gr := gridThrusterLayout thrusterCount thrusterSize off.2
        match gr.1 with
        | some ps => ((ps, false), gr.2)
        | none =>
          let rad := radialThrusterLayout thrusterCount thrusterSize gr.2
          ((rad.1, true), rad.2)
    else
      -- falls through to the `else if (thrusterCount > 3 && rng.random() < 0.5)` branch
      let c2 := c1.2.rand
      if c2.1 < 0.5 then
        let gr := gridThrusterLayout thrusterCount thrusterSize c2.2
        match gr.1 with
        | some ps => ((ps, false), gr.2)
        | none =>
          let rad := radialThrusterLayout thrusterCount thrusterSize gr.2
          ((rad.1, true), rad.2)
      else
        let rad := radialThrusterLayout thrusterCount thrusterSize c2.2
        ((rad.1, true), rad.2)
  else if 3 < thrusterCount then
    let c2 := rng.rand
    if c2.1 < 0.5 then
      let gr := gridThrusterLayout thrusterCount thrusterSize c2.2
      match gr.1 with
      | some ps => ((ps, false), gr.2)
      | none =>
        let rad := radialThrusterLayout thrusterCount thrusterSize gr.2
        ((rad.1, true), rad.2)
    else
      let rad := radialThrusterLayout thrusterCount thrusterSize c2.2
      ((rad.1, true), rad.2)
  else
    let rad := radialThrusterLayout thrusterCount thrusterSize rng
    ((rad.1, true), rad.2)

/-- makeThrusters: draw a per-thruster power inside
[max (5, mass / 33), min (250, mass)], take the ceiling of mass / power as the
thruster count, renormalize the power to mass / count, map the power to a
nozzle diameter by an area-preserving formula, draw the thruster hue, select a
layout, and extrude one nozzle (plus glow cone) per position with a common
depth of size / range (0.5, 4). -/
noncomputable def makeThrusters (totalShipMass : ℝ) (rng : Rng) : ThrusterOut × Rng :=
  let maximumMinThrusterPower : ℝ := max 5 (totalShipMass / 33)
  let minimumMaxThrusterPower : ℝ := min 250 (totalShipMass / 1)
  let pw := rng.range maximumMinThrusterPower minimumMaxThrusterPower
  let thrusterCount : ℤ := ⌈totalShipMass / pw.1⌉
  let thrusterPower : ℝ := totalShipMass / (thrusterCount : ℝ)
  let thrusterArea : ℝ := 0.015 * thrusterPower
  let thrusterSize : ℝ := 2 * Real.sqrt (thrusterArea / π)
  let hue := pw.2.rand
  let sel := selectThrusterLayout thrusterCount.toNat thrusterSize hue.2
  let dd := sel.2.range 0.5 4
  let thrusterDepth : ℝ := thrusterSize / dd.1
  (⟨pw.1, thrusterPower, thrusterCount, thrusterSize, sel.1.2, sel.1.1, thrusterDepth,
    if sel.1.1.isEmpty then 0 else min 0 (-(1.25 * thrusterSize))⟩, dd.2)

/-- Shared bounds on the thruster computation: for a ship mass in [10, 1000]
and a valid stream, the drawn power lies in [5, 250], the ceiling-derived
count lies in [1, 33], and the renormalized power lies in [mass / 33, 250]. -/
theorem makeThrusters_bounds (m : ℝ) (f : ℤ → ℝ) (s : ℤ)
    (hm1 : 10 ≤ m) (hm2 : m ≤ 1000) (hf : ValidStream f) :
    5 ≤ (makeThrusters m ⟨f, s⟩).1.drawnPower ∧
    (makeThrusters m ⟨f, s⟩).1.drawnPower ≤ 250 ∧
    1 ≤ (makeThrusters m ⟨f, s⟩).1.thrusterCount ∧
    (makeThrusters m ⟨f, s⟩).1.thrusterCount ≤ 33 ∧
    m / 33 ≤ (makeThrusters m ⟨f, s⟩).1.thrusterPower ∧
    (makeThrusters m ⟨f, s⟩).1.thrusterPower ≤ 250 := by
  have hle : max 5 (m / 33) ≤ min 250 (m / 1) := by
    rw [max_le_iff, le_min_iff, le_min_iff]
    constructor
    · constructor <;> linarith
    · constructor <;> [linarith; nlinarith]
  have hb := @range_mem f hf s (max 5 (m / 33)) (min 250 (m / 1)) hle
  set p0 : ℝ := (Rng.range ⟨f, s⟩ (max 5 (m / 33)) (min 250 (m / 1))).1 with hp0
  have hp5 : 5 ≤ p0 := le_trans (le_max_left _ _) hb.1
  have hpm33 : m / 33 ≤ p0 := le_trans (le_max_right _ _) hb.1
  have hp250 : p0 ≤ 250 := le_trans hb.2 (min_le_left _ _)
  have hppos : 0 < p0 := by linarith
  have hcount1 : 1 ≤ ⌈m / p0⌉ := Int.ceil_pos.mpr (div_pos (by linarith) hppos)
  have hcount33 : ⌈m / p0⌉ ≤ 33 := by
    apply Int.ceil_le.mpr
    rw [div_le_iff₀ hppos]
    push_cast
    nlinarith
  have hcpos : (0 : ℝ) < (⌈m / p0⌉ : ℝ) := by exact_mod_cast hcount1
  have hcle : ((⌈m / p0⌉ : ℤ) : ℝ) ≤ 33 := by exact_mod_cast hcount33
  have hceilge : m / p0 ≤ (⌈m / p0⌉ : ℝ) := Int.le_ceil _
  have hrenorm_le : m / (⌈m / p0⌉ : ℝ) ≤ p0 := by
    rw [div_le_iff₀ hcpos]
    have : m ≤ (m / p0) * p0 := by field_simp
    nlinarith
  have hrenorm_ge : m / 33 ≤ m / (⌈m / p0⌉ : ℝ) := by
    gcongr
  simp only [makeThrusters]
  exact ⟨hp5, hp250, hcount1, hcount33, hrenorm_ge, le_trans hrenorm_le hp250⟩

/-- C6: for every totalShipMass in [10, 1000] and every rng state, the
thruster count computed by makeThrusters is an integer in [1, 33]; in
particular a count of 0 never occurs. -/
theorem thrusterCount_in_one_to_thirtythree (m : ℝ) (f : ℤ → ℝ) (s : ℤ)
    (hm1 : 10 ≤ m) (hm2 : m ≤ 1000) (hf : ValidStream f) :
    1 ≤ (makeThrusters m ⟨f, s⟩).1.thrusterCount ∧
      (makeThrusters m ⟨f, s⟩).1.thrusterCount ≤ 33 := by
  have h := makeThrusters_bounds m f s hm1 hm2 hf
  exact ⟨h.2.2.1, h.2.2.2.1⟩

/-- Witness for C6 at mass 10 with the all-zero draw stream. -/
theorem thrusterCount_in_one_to_thirtythree_witness :
    1 ≤ (makeThrusters 10 ⟨fun _ => 0, 0⟩).1.thrusterCount ∧
      (makeThrusters 10 ⟨fun _ => 0, 0⟩).1.thrusterCount ≤ 33 :=
  thrusterCount_in_one_to_thirtythree 10 (fun _ => 0) 0 (by norm_num) (by norm_num)
    (fun _ => ⟨le_refl 0, zero_lt_one⟩)

/-- C7 counterexample: at totalShipMass = 11 (inside [10, 1000]) with the
constant draw 1/30, the drawn power is 5.2, the count is ceil (11 / 5.2) = 3,
and the renormalized per-thruster power 11 / 3 is below the claimed minimum
of 5. -/
theorem thrusterPower_below_five_at_mass_eleven :
    (10 : ℝ) ≤ 11 ∧ (11 : ℝ) ≤ 1000 ∧ ValidStream (fun _ => 1 / 30) ∧
      (makeThrusters 11 ⟨fun _ => 1 / 30, 0⟩).1.thrusterPower < 5 := by
  refine ⟨by norm_num, by norm_num, fun _ => ⟨by norm_num, by norm_num⟩, ?_⟩
  simp only [makeThrusters, Rng.range, Rng.rand]
  have h1 : max (5 : ℝ) (11 / 33) = 5 := by norm_num
  have h2 : min (250 : ℝ) (11 / 1) = 11 := by norm_num
  rw [h1, h2]
  have h3 : (5 : ℝ) + 1 / 30 * (11 - 5) = 26 / 5 := by norm_num
  rw [h3]
  have h4 : ⌈(11 : ℝ) / (26 / 5)⌉ = 3 := by
    rw [Int.ceil_eq_iff]
    constructor <;> norm_num
  rw [h4]
  norm_num

/-- C7 amended: the drawn per-thruster power always lies in [5, 250], and the
renormalized per-thruster power lies in [totalShipMass / 33, 250]; the lower
end can drop below 5 (see the counterexample), but never below 10/33. -/
theorem thrusterPower_bounds_amended (m : ℝ) (f : ℤ → ℝ) (s : ℤ)
    (hm1 : 10 ≤ m) (hm2 : m ≤ 1000) (hf : ValidStream f) :
    (5 ≤ (makeThrusters m ⟨f, s⟩).1.drawnPower ∧
      (makeThrusters m ⟨f, s⟩).1.drawnPower ≤ 250) ∧
    (m / 33 ≤ (makeThrusters m ⟨f, s⟩).1.thrusterPower ∧
      (makeThrusters m ⟨f, s⟩).1.thrusterPower ≤ 250) := by
  have h := makeThrusters_bounds m f s hm1 hm2 hf
  exact ⟨⟨h.1, h.2.1⟩, ⟨h.2.2.2.2.1, h.2.2.2.2.2⟩⟩

/-- Witness for the amended C7 at mass 10 with the all-zero draw stream. -/
theorem thrusterPower_bounds_amended_witness :
    (5 ≤ (makeThrusters 10 ⟨fun _ => 0, 0⟩).1.drawnPower ∧
      (makeThrusters 10 ⟨fun _ => 0, 0⟩).1.drawnPower ≤ 250) ∧
    ((10 : ℝ) / 33 ≤ (makeThrusters 10 ⟨fun _ => 0, 0⟩).1.thrusterPower ∧
      (makeThrusters 10 ⟨fun _ => 0, 0⟩).1.thrusterPower ≤ 250) :=
  thrusterPower_bounds_amended 10 (fun _ => 0) 0 (by norm_num) (by norm_num)
    (fun _ => ⟨le_refl 0, zero_lt_one⟩)

/-! ### Grid applicability (claim C5) -/

/-- Helper: a getD lookup at an index below the length is a member. -/
theorem getD_mem_of_lt {α : Type} (l : List α) (i : ℕ) (d : α) (h : i < l.length) :
    l.getD i d ∈ l := by
  rw [List.getD_eq_getElem?_getD, List.getElem?_eq_getElem h]
  exact List.getElem_mem h

/-- Every configuration produced by findEvenGridConfigurations is a genuine
factorization with both sides at least 2. -/
theorem mem_findEvenGridConfigurations {n : ℕ} {c : ℕ × ℕ}
    (h : c ∈ findEvenGridConfigurations n) : 2 ≤ c.1 ∧ 2 ≤ c.2 ∧ c.1 * c.2 = n := by
  simp only [findEvenGridConfigurations, List.mem_flatMap, List.mem_filter,
    List.mem_range'_1] at h
  obtain ⟨rows, ⟨⟨hlo, _⟩, hsq⟩, hc⟩ := h
  have hsq' : rows * rows ≤ n := by simpa using hsq
  by_cases hmod : n % rows = 0
  · rw [if_pos hmod] at hc
    by_cases hcols : 2 ≤ n / rows
    · rw [if_pos hcols] at hc
      have hdvd : rows ∣ n := Nat.dvd_of_mod_eq_zero hmod
      rcases List.mem_cons.mp hc with hc1 | hc2
      · subst hc1
        exact ⟨hcols, hlo, Nat.div_mul_cancel hdvd⟩
      · by_cases hne : rows ≠ n / rows
        · rw [if_pos hne] at hc2
          simp only [List.mem_singleton] at hc2
          subst hc2
          exact ⟨hlo, hcols, Nat.mul_div_cancel' hdvd⟩
        · rw [if_neg hne] at hc2
          simp at hc2
    · rw [if_neg hcols] at hc
      simp at hc
  · rw [if_neg hmod] at hc
    simp at hc

/-- findEvenGridConfigurations is nonempty exactly when the engine count has
a factorization with both factors at least 2. -/
theorem findEvenGridConfigurations_ne_nil_iff {n : ℕ} :
    findEvenGridConfigurations n ≠ [] ↔ ∃ a b, 2 ≤ a ∧ 2 ≤ b ∧ a * b = n := by
  constructor
  · intro h
    obtain ⟨c, hc⟩ := List.exists_mem_of_ne_nil _ h
    obtain ⟨h1, h2, h3⟩ := mem_findEvenGridConfigurations hc
    exact ⟨c.1, c.2, h1, h2, h3⟩
  · rintro ⟨a, b, ha, hb, hab⟩
    set rows := min a b with hrows
    have hrows2 : 2 ≤ rows := le_min ha hb
    have hf : rows * (max a b) = n := by
      rw [hrows]
      rcases le_total a b with hab' | hab'
      · rw [min_eq_left hab', max_eq_right hab']; exact hab
      · rw [min_eq_right hab', max_eq_left hab']; rw [mul_comm]; exact hab
    have hsq : rows * rows ≤ n := by
      calc rows * rows ≤ rows * max a b := by
            apply Nat.mul_le_mul_left
            exact le_trans (min_le_left a b) (le_max_left a b)
        _ = n := hf
    have hdvd : rows ∣ n := ⟨max a b, hf.symm⟩
    have hmod : n % rows = 0 := Nat.dvd_iff_mod_eq_zero.mp hdvd
    have hcols : n / rows = max a b := by
      rw [← hf, Nat.mul_div_cancel_left _ (by omega : 0 < rows)]
    have hcols2 : 2 ≤ n / rows := by
      rw [hcols]
      exact le_trans ha (le_max_left a b)
    apply List.ne_nil_of_mem
      (show ((n / rows : ℕ), rows) ∈ findEvenGridConfigurations n from ?_)
    simp only [findEvenGridConfigurations, List.mem_flatMap, List.mem_filter,
      List.mem_range'_1]
    refine ⟨rows, ⟨⟨hrows2, ?_⟩, by simpa using hsq⟩, ?_⟩
    · have : 2 * rows ≤ rows * rows := by nlinarith
      omega
    · rw [if_pos hmod, if_pos hcols2]
      exact List.mem_cons_self _ _

/-- C5: gridThrusterLayout returns a non-null result exactly when the count
factors as rows * cols with both factors at least 2, and any non-null result
is a centered rectangular lattice with spacing unitSize * 1.3 whose shape is
such a factorization. -/
theorem gridThrusterLayout_applicability (n : ℕ) (s : ℝ) (f : ℤ → ℝ) (st : ℤ)
    (_hn : 1 ≤ n) (hf : ValidStream f) :
    ((gridThrusterLayout n s ⟨f, st⟩).1 = none ↔
      ¬∃ rows cols, 2 ≤ rows ∧ 2 ≤ cols ∧ rows * cols = n) ∧
    ∀ ps, (gridThrusterLayout n s ⟨f, st⟩).1 = some ps →
      ∃ cols rows, 2 ≤ cols ∧ 2 ≤ rows ∧ cols * rows = n ∧
        ps = gridLatticePoints cols rows (s * 1.3) := by
  by_cases hempty : (findEvenGridConfigurations n).isEmpty = true
  · have hnil : findEvenGridConfigurations n = [] := by
      simpa [List.isEmpty_iff] using hempty
    have hno : ¬∃ rows cols, 2 ≤ rows ∧ 2 ≤ cols ∧ rows * cols = n := by
      intro hex
      exact (findEvenGridConfigurations_ne_nil_iff.mpr hex) hnil
    constructor
    · simp only [gridThrusterLayout, hempty, if_true]
      exact iff_of_true trivial hno
    · intro ps hps
      simp only [gridThrusterLayout, hempty, if_true] at hps
      exact absurd hps (by simp)
  · have hne : findEvenGridConfigurations n ≠ [] := by
      simpa [List.isEmpty_iff] using hempty
    obtain ⟨a, b, ha, hb, hab⟩ := findEvenGridConfigurations_ne_nil_iff.mp hne
    have hlen : 1 ≤ (findEvenGridConfigurations n).length := List.length_pos.mpr hne
    constructor
    · constructor
      · intro hnone
        simp [gridThrusterLayout, hempty] at hnone
      · intro hno
        exact absurd ⟨a, b, ha, hb, hab⟩ hno
    · intro ps hps
      simp only [gridThrusterLayout, hempty, Bool.false_eq_true, if_false] at hps
      have hidx := @int_mem f hf st 0 (((findEvenGridConfigurations n).length : ℤ) - 1)
        (by omega)
      set idx : ℤ := ((⟨f, st⟩ : Rng).int 0 (((findEvenGridConfigurations n).length : ℤ) - 1)).1
      have hlt : idx.toNat < (findEvenGridConfigurations n).length := by omega
      have hmem := getD_mem_of_lt (findEvenGridConfigurations n) idx.toNat (0, 0) hlt
      obtain ⟨h1, h2, h3⟩ := mem_findEvenGridConfigurations hmem
      exact ⟨_, _, h1, h2, h3, (Option.some_injective _ hps).symm⟩

/-- Witness for C5 at n = 12 (which factors, e.g. 3 * 4) with a unit size. -/
theorem gridThrusterLayout_applicability_witness :
    (((gridThrusterLayout 12 1 ⟨fun _ => 0, 0⟩).1 = none ↔
      ¬∃ rows cols, 2 ≤ rows ∧ 2 ≤ cols ∧ rows * cols = 12) ∧
    ∀ ps, (gridThrusterLayout 12 1 ⟨fun _ => 0, 0⟩).1 = some ps →
      ∃ cols rows, 2 ≤ cols ∧ 2 ≤ rows ∧ cols * rows = 12 ∧
        ps = gridLatticePoints cols rows ((1 : ℝ) * 1.3)) :=
  gridThrusterLayout_applicability 12 1 (fun _ => 0) 0 (by norm_num)
    (fun _ => ⟨le_refl 0, zero_lt_one⟩)

/-! ### Non-overlap of the layout algorithms (claim C4) -/

/-- Euclidean distance between two placement positions. -/
noncomputable def dist2 (p q : Point) : ℝ :=
  Real.sqrt ((p.1 - q.1) ^ 2 + (p.2 - q.2) ^ 2)

/-- A position list is s-spaced when every (ordered) pair of placed points is
at Euclidean distance at least s: the non-overlap property of the spec. -/
def SpacedList (s : ℝ) (ps : List Point) : Prop :=
  ps.Pairwise fun p q => s ≤ dist2 p q

/-- Distance from the origin of a placement position. -/
noncomputable def normPt (p : Point) : ℝ := Real.sqrt (p.1 ^ 2 + p.2 ^ 2)

theorem dist2_nonneg (p q : Point) : 0 ≤ dist2 p q := Real.sqrt_nonneg _

theorem normPt_nonneg (p : Point) : 0 ≤ normPt p := Real.sqrt_nonneg _

/-- To bound a distance below it is enough to bound the squared distance. -/
theorem le_dist2 {s : ℝ} {p q : Point} (hs : 0 ≤ s)
    (h : s ^ 2 ≤ (p.1 - q.1) ^ 2 + (p.2 - q.2) ^ 2) : s ≤ dist2 p q :=
  (Real.le_sqrt hs (le_trans (by positivity) h)).mpr h

/-- The distance between the first coordinates bounds the distance below. -/
theorem abs_fst_le_dist2 (p q : Point) : |p.1 - q.1| ≤ dist2 p q := by
  rw [← Real.sqrt_sq_eq_abs]
  apply Real.sqrt_le_sqrt
  nlinarith [sq_nonneg (p.2 - q.2)]

/-- The distance between the second coordinates bounds the distance below. -/
theorem abs_snd_le_dist2 (p q : Point) : |p.2 - q.2| ≤ dist2 p q := by
  rw [← Real.sqrt_sq_eq_abs]
  apply Real.sqrt_le_sqrt
  nlinarith [sq_nonneg (p.1 - q.1)]

/-- Reverse triangle inequality: the distance between two points is at least
the difference of their distances from the origin. -/
theorem norm_sub_le_dist2 (p q : Point) : normPt q - normPt p ≤ dist2 p q := by
  have hA : (0 : ℝ) ≤ p.1 ^ 2 + p.2 ^ 2 := by positivity
  have hD : (0 : ℝ) ≤ (p.1 - q.1) ^ 2 + (p.2 - q.2) ^ 2 := by positivity
  have hcs : (p.1 * (q.1 - p.1) + p.2 * (q.2 - p.2)) ^ 2 ≤
      (p.1 ^ 2 + p.2 ^ 2) * ((q.1 - p.1) ^ 2 + (q.2 - p.2) ^ 2) := by
    nlinarith [sq_nonneg (p.1 * (q.2 - p.2) - p.2 * (q.1 - p.1))]
  have hinner : p.1 * (q.1 - p.1) + p.2 * (q.2 - p.2) ≤ normPt p * dist2 p q := by
    calc p.1 * (q.1 - p.1) + p.2 * (q.2 - p.2)
        ≤ |p.1 * (q.1 - p.1) + p.2 * (q.2 - p.2)| := le_abs_self _
      _ = Real.sqrt ((p.1 * (q.1 - p.1) + p.2 * (q.2 - p.2)) ^ 2) :=
          (Real.sqrt_sq_eq_abs _).symm
      _ ≤ Real.sqrt ((p.1 ^ 2 + p.2 ^ 2) * ((p.1 - q.1) ^ 2 + (p.2 - q.2) ^ 2)) := by
          apply Real.sqrt_le_sqrt
          nlinarith [hcs]
      _ = normPt p * dist2 p q := by
          rw [Real.sqrt_mul hA]
          rfl
  have hq : normPt q ≤ normPt p + dist2 p q := by
    rw [normPt]
    apply (Real.sqrt_le_left (add_nonneg (normPt_nonneg p) (dist2_nonneg p q))).mpr
    have ha2 : normPt p ^ 2 = p.1 ^ 2 + p.2 ^ 2 := Real.sq_sqrt hA
    have hd2 : dist2 p q ^ 2 = (p.1 - q.1) ^ 2 + (p.2 - q.2) ^ 2 := Real.sq_sqrt hD
    nlinarith [hinner]
  linarith

/-- Squared distance of two points on a common circle, in terms of the cosine
of the angle difference. -/
theorem circle_dist_sq (r a b : ℝ) :
    ((circlePoint r a).1 - (circlePoint r b).1) ^ 2 +
      ((circlePoint r a).2 - (circlePoint r b).2) ^ 2 =
    2 * r ^ 2 * (1 - Real.cos (a - b)) := by
  simp only [circlePoint]
  have h1 := Real.sin_sq_add_cos_sq a
  have h2 := Real.sin_sq_add_cos_sq b
  rw [Real.cos_sub]
  nlinarith [h1, h2]

/-- Half-angle identity in the form used for chord lengths. -/
theorem one_sub_cos_eq (x : ℝ) : 1 - Real.cos x = 2 * Real.sin (x / 2) ^ 2 := by
  have h := Real.cos_two_mul (x / 2)
  have h2 : 2 * (x / 2) = x := by ring
  rw [h2] at h
  have h3 := Real.sin_sq_add_cos_sq (x / 2)
  nlinarith

/-- Points emitted on a circle all sit at that circle's radius. -/
theorem normPt_circlePoint {r : ℝ} (hr : 0 ≤ r) (θ : ℝ) : normPt (circlePoint r θ) = r := by
  have h : (r * Real.cos θ) ^ 2 + (r * Real.sin θ) ^ 2 = r ^ 2 := by
    nlinarith [Real.sin_sq_add_cos_sq θ]
  rw [normPt, circlePoint]
  simp only
  rw [h, Real.sqrt_sq hr]

/-- Monotonicity of sin on the first quadrant. -/
theorem sin_mono_first_quadrant {x y : ℝ} (hx : 0 ≤ x) (hxy : x ≤ y) (hy : y ≤ π / 2) :
    Real.sin x ≤ Real.sin y := by
  have hpi := Real.pi_pos
  exact Real.strictMonoOn_sin.monotoneOn ⟨by linarith, by linarith⟩ ⟨by linarith, hy⟩ hxy

/-- On a ring of k points the chord to any other point is at least the chord
to an adjacent point: sin (pi d / k) at least sin (pi / k) for 1 <= d < k. -/
theorem sin_pi_div_le {k d : ℕ} (hk : 2 ≤ k) (hd1 : 1 ≤ d) (hd2 : d < k) :
    Real.sin (π / k) ≤ Real.sin (π * d / k) := by
  have hpi := Real.pi_pos
  have hkpos : (0 : ℝ) < k := by positivity
  have hd1R : (1 : ℝ) ≤ (d : ℝ) := by exact_mod_cast hd1
  have hd2R : (d : ℝ) ≤ (k : ℝ) - 1 := by
    have : (d : ℝ) + 1 ≤ k := by exact_mod_cast hd2
    linarith
  have hlow : π / k ≤ π * d / k := by
    rw [div_le_div_iff_of_pos_right hkpos]
    nlinarith
  have hup : π * d / k ≤ π - π / k := by
    rw [div_le_iff₀ hkpos]
    have : π * d ≤ π * ((k : ℝ) - 1) := by nlinarith
    have hk2R : (2 : ℝ) ≤ (k : ℝ) := by exact_mod_cast hk
    calc π * d ≤ π * ((k : ℝ) - 1) := this
      _ = (π - π / k) * k := by field_simp; ring
  have hdivpos : 0 ≤ π / k := by positivity
  rcases le_or_lt (π * d / k) (π / 2) with h | h
  · exact sin_mono_first_quadrant hdivpos hlow h
  · rw [← Real.sin_pi_sub (π * d / k)]
    apply sin_mono_first_quadrant hdivpos (by linarith) (by linarith)

/-- Chord bound inside one ring: when the ring holds k points of spacing at
least s along the circumference (k at most circumference / (1.1 s)) at radius
at least 1.15 s, adjacent chords are at least s. -/
theorem outer_ring_chord {s r : ℝ} {k : ℕ} (hs : 0 < s) (hr : 1.15 * s ≤ r)
    (hk2 : 2 ≤ k) (hcap : (k : ℝ) ≤ 2 * π * r / (s * 1.1)) :
    s ≤ 2 * r * Real.sin (π / k) := by
  have hpi := Real.pi_pos
  have hrpos : 0 < r := by nlinarith
  have hkR : (2 : ℝ) ≤ (k : ℝ) := by exact_mod_cast hk2
  have hkpos : (0 : ℝ) < k := by linarith
  set t : ℝ := 0.55 * s / r with ht
  have htpos : 0 < t := by positivity
  have htle : t ≤ 11 / 23 := by
    rw [ht, div_le_iff₀ hrpos]
    nlinarith
  have ht1 : t ≤ 1 := by linarith
  have htlepk : t ≤ π / k := by
    rw [ht, div_le_div_iff₀ hrpos hkpos]
    have hcap' : (k : ℝ) * (s * 1.1) ≤ 2 * π * r := by
      rw [le_div_iff₀ (by positivity : (0:ℝ) < s * 1.1)] at hcap
      linarith
    nlinarith
  have hpk2 : π / k ≤ π / 2 := by
    apply div_le_div_of_nonneg_left (le_of_lt hpi) (by norm_num) hkR
  have hsin1 : t - t ^ 3 / 4 < Real.sin t := Real.sin_gt_sub_cube htpos ht1
  have hsin2 : Real.sin t ≤ Real.sin (π / k) :=
    sin_mono_first_quadrant (le_of_lt htpos) htlepk hpk2
  have htr : t * r = 0.55 * s := by
    rw [ht]
    field_simp
  have hkey : s ≤ 2 * r * (t - t ^ 3 / 4) := by
    nlinarith [sq_nonneg t, htpos, htle, htr, hs, hrpos]
  calc s ≤ 2 * r * (t - t ^ 3 / 4) := hkey
    _ ≤ 2 * r * Real.sin t := by nlinarith
    _ ≤ 2 * r * Real.sin (π / k) := by nlinarith

/-- Chord bound inside the center cluster: the cluster radius
(c + 1.6) * s / (2 pi) makes adjacent chords at least s for any cluster of
c >= 2 points. -/
theorem cluster_sin_bound (c : ℕ) (hc : 2 ≤ c) :
    π ≤ ((c : ℝ) + 1.6) * Real.sin (π / c) := by
  have hpi := Real.pi_pos
  have hpilt : π < 3.1416 := Real.pi_lt_d4
  have hpigt : 3.1415 < π := Real.pi_gt_d4
  rcases Nat.lt_or_ge c 4 with h4 | h4
  · interval_cases c
    · -- c = 2
      rw [show ((2 : ℕ) : ℝ) = 2 by norm_num, Real.sin_pi_div_two]
      linarith
    · -- c = 3
      rw [show ((3 : ℕ) : ℝ) = 3 by norm_num, Real.sin_pi_div_three]
      have hs3 : (1.73 : ℝ) ≤ Real.sqrt 3 :=
        (Real.le_sqrt (by norm_num) (by norm_num)).mpr (by norm_num)
      nlinarith
  · have hcR : (4 : ℝ) ≤ (c : ℝ) := by exact_mod_cast h4
    have hcpos : (0 : ℝ) < c := by linarith
    set x : ℝ := π / c with hx
    have hxpos : 0 < x := by positivity
    have hx1 : x ≤ 1 := by
      rw [hx, div_le_one hcpos]
      linarith
    have hsin : x - x ^ 3 / 4 < Real.sin x := Real.sin_gt_sub_cube hxpos hx1
    have hxc : x * c = π := by
      rw [hx]
      field_simp
    have hkey : π ≤ ((c : ℝ) + 1.6) * (x - x ^ 3 / 4) := by
      have hpisq : π ^ 2 < 9.87 := by nlinarith
      have hgoal : ((c : ℝ) + 1.6) * (4 * (c:ℝ) ^ 2 - π ^ 2) ≥ 4 * (c:ℝ) ^ 3 := by
        nlinarith
      have hx3 : x ^ 3 * c ^ 3 = π ^ 3 := by
        rw [← hxc]; ring
      nlinarith [hgoal, hx3, hxc, hcpos, sq_nonneg x]
    nlinarith [hsin, hcR]

/-- Points of one ring are pairwise at least s apart, provided the adjacent
chord 2 r sin (pi / k) is at least s. -/
theorem ringPoints_spaced {s r : ℝ} {k : ℕ} (φ : ℝ) (hs : 0 < s) (hr : 0 ≤ r)
    (hk : 2 ≤ k) (hchord : s ≤ 2 * r * Real.sin (π / k)) :
    SpacedList s (ringPoints r k φ) := by
  have hpi := Real.pi_pos
  have hkpos : (0 : ℝ) < k := by
    have : (2 : ℝ) ≤ (k : ℝ) := by exact_mod_cast hk
    linarith
  rw [SpacedList, ringPoints, List.pairwise_iff_getElem]
  intro i j hi hj hij
  simp only [List.length_map, List.length_range] at hi hj
  rw [List.getElem_map, List.getElem_map, List.getElem_range, List.getElem_range]
  set d : ℕ := j - i with hd
  have hd1 : 1 ≤ d := by omega
  have hdlt : d < k := by omega
  have hdR : (d : ℝ) = (j : ℝ) - (i : ℝ) := by
    rw [hd]
    push_cast [Nat.cast_sub (le_of_lt hij)]
    ring
  have hsinpos : 0 ≤ Real.sin (π * d / k) := by
    apply Real.sin_nonneg_of_nonneg_of_le_pi
    · positivity
    · rw [div_le_iff₀ hkpos]
      have : (d : ℝ) ≤ (k : ℝ) := by exact_mod_cast le_of_lt hdlt
      nlinarith
  have hchord2 : s ≤ 2 * r * Real.sin (π * d / k) := by
    calc s ≤ 2 * r * Real.sin (π / k) := hchord
      _ ≤ 2 * r * Real.sin (π * d / k) := by
          have := sin_pi_div_le hk hd1 hdlt
          nlinarith
  apply le_dist2 (le_of_lt hs)
  have hangle : ((i : ℝ) / k * (2 * π) - π / 2 + φ) - ((j : ℝ) / k * (2 * π) - π / 2 + φ)
      = -(2 * (π * d / k)) := by
    rw [hdR]
    field_simp
    ring
  rw [circle_dist_sq, hangle, Real.cos_neg, one_sub_cos_eq]
  have harg : 2 * (π * (d : ℝ) / k) / 2 = π * d / k := by ring
  rw [harg]
  nlinarith [hchord2, hsinpos, sq_nonneg (Real.sin (π * d / k))]

/-- For a positive thruster size and a ring radius of at least 1.15 s, the
per-ring engine count is at least 1 (so the source loop makes progress), at
most the number of engines left, and within the ring capacity. -/
theorem ringCount_bounds {s baseR : ℝ} {left : ℕ} (hs : 0 < s) (hbase : 1.15 * s ≤ baseR)
    (hleft : 1 ≤ left) :
    1 ≤ ringCount s baseR left ∧ ringCount s baseR left ≤ left ∧
      ((ringCount s baseR left : ℝ) ≤ 2 * π * baseR / (s * 1.1)) := by
  have hpi := Real.pi_pos
  rw [ringCount]
  set M : ℤ := ⌊2 * π * baseR / (s * 1.1)⌋ with hM
  have hM6 : 6 ≤ M := by
    rw [hM]
    apply Int.le_floor.mpr
    rw [le_div_iff₀ (by positivity)]
    push_cast
    nlinarith [Real.pi_gt_three]
  have hMreal : (M : ℝ) ≤ 2 * π * baseR / (s * 1.1) := Int.floor_le _
  set k : ℤ := if (left : ℤ) - M = 1 then min M (left : ℤ) - 1 else min M (left : ℤ) with hk
  have hk1 : 1 ≤ k := by
    rw [hk]
    split
    · omega
    · omega
  have hkleft : k ≤ left := by
    rw [hk]
    split <;> omega
  have hkM : k ≤ M := by
    rw [hk]
    split <;> omega
  refine ⟨by omega, by omega, ?_⟩
  have : ((k.toNat : ℤ) : ℝ) ≤ (M : ℝ) := by exact_mod_cast (by omega : k.toNat ≤ M)
  calc ((k.toNat : ℕ) : ℝ) = ((k.toNat : ℤ) : ℝ) := by push_cast; ring
    _ ≤ (M : ℝ) := this
    _ ≤ _ := hMreal

/-- Invariant of the outer-ring loop: all points it places are s-spaced, sit
at radius at least baseR from the axis, and number exactly enginesLeft. -/
theorem radialLoop_spec {s : ℝ} (hs : 0 < s) :
    ∀ left : ℕ, ∀ baseR : ℝ, ∀ ring : ℕ, 1.15 * s ≤ baseR →
      SpacedList s (radialLoop s left baseR ring) ∧
      (∀ p ∈ radialLoop s left baseR ring, baseR ≤ normPt p) ∧
      (radialLoop s left baseR ring).length = left := by
  intro left
  induction left using Nat.strong_induction_on with
  | _ left ih =>
    intro baseR ring hbase
    by_cases h0 : left = 0
    · subst h0
      rw [radialLoop]
      simp [SpacedList]
    · have hleft : 1 ≤ left := Nat.one_le_iff_ne_zero.mpr h0
      obtain ⟨hk1, hkle, hkcap⟩ := ringCount_bounds hs hbase hleft
      have hbase0 : 0 < baseR := by nlinarith
      have hknz : ringCount s baseR left ≠ 0 := by omega
      rw [radialLoop, if_neg h0, dif_neg hknz]
      set kn := ringCount s baseR left with hkn
      set φ : ℝ := if ring % 2 = 1 then π / kn else 0 with hφ
      have hnext : 1.15 * s ≤ baseR + s * 1.15 := by nlinarith
      obtain ⟨ihspaced, ihnorm, ihlen⟩ :=
        ih (left - kn) (by omega) (baseR + s * 1.15) (ring + 1) hnext
      have hringlen : (ringPoints baseR kn φ).length = kn := by
        rw [ringPoints]
        simp
      have hringnorm : ∀ p ∈ ringPoints baseR kn φ, normPt p = baseR := by
        intro p hp
        rw [ringPoints] at hp
        simp only [List.mem_map, List.mem_range] at hp
        obtain ⟨i, _, hip⟩ := hp
        rw [← hip, normPt_circlePoint (le_of_lt hbase0)]
      have hringspaced : SpacedList s (ringPoints baseR kn φ) := by
        rcases Nat.lt_or_ge kn 2 with hk2 | hk2
        · have hkeq : kn = 1 := by omega
          rw [hkeq, ringPoints]
          simp [SpacedList, List.range_succ]
        · exact ringPoints_spaced φ hs (le_of_lt hbase0) hk2
            (outer_ring_chord hs hbase hk2 hkcap)
      constructor
      · rw [SpacedList, List.pairwise_append]
        refine ⟨hringspaced, ihspaced, ?_⟩
        intro x hx y hy
        have hnx : normPt x = baseR := hringnorm x hx
        have hny : baseR + s * 1.15 ≤ normPt y := ihnorm y hy
        have := norm_sub_le_dist2 x y
        nlinarith
      constructor
      · intro p hp
        rcases List.mem_append.mp hp with hp1 | hp2
        · rw [hringnorm p hp1]
        · have := ihnorm p hp2
          nlinarith
      · rw [List.length_append, hringlen, ihlen]
        omega

/-- radialThrusterLayout output: the returned position list is s-spaced and
has exactly thrusterCount entries, for any valid stream and positive size. -/
theorem radialThrusterLayout_spec (count : ℕ) (s : ℝ) (f : ℤ → ℝ) (st : ℤ)
    (hs : 0 < s) (hf : ValidStream f) :
    SpacedList s (radialThrusterLayout count s ⟨f, st⟩).1 ∧
      (radialThrusterLayout count s ⟨f, st⟩).1.length = count := by
  have hpi := Real.pi_pos
  rw [radialThrusterLayout]
  simp only
  set maxCC : ℤ := if count ≤ 4 then (count : ℤ) else ((count / 3 : ℕ) : ℤ) with hmaxCC
  set minCC : ℤ := if count ≤ 4 then (count : ℤ) else 0 with hminCC
  have hminmax : minCC ≤ maxCC := by
    rw [hminCC, hmaxCC]
    split <;> omega
  have hcc := @int_mem f hf st minCC maxCC hminmax
  set cc : ℤ := (Rng.int ⟨f, st⟩ minCC maxCC).1 with hcc'
  have hccle : cc ≤ count := by
    have : maxCC ≤ count := by
      rw [hmaxCC]
      split
      · omega
      · exact_mod_cast Nat.cast_le.mpr (Nat.div_le_self count 3)
    omega
  set ccn : ℕ := cc.toNat with hccn
  have hccnle : ccn ≤ count := by omega
  set centerRadius : ℝ := if 2 ≤ ccn then ((ccn : ℝ) + 1.6) * s / (2 * π) else 0
    with hcr
  have hcr0 : 0 ≤ centerRadius := by
    rw [hcr]
    split
    · positivity
    · exact le_refl 0
  set cluster : List Point :=
    if ccn = 1 then [((0 : ℝ), (0 : ℝ))]
    else if 2 ≤ ccn then ringPoints centerRadius ccn 0
    else [] with hcluster
  have hbase : 1.15 * s ≤ centerRadius + s * 1.15 := by nlinarith
  obtain ⟨hloopsp, hloopnorm, hlooplen⟩ :=
    radialLoop_spec hs (count - ccn) (centerRadius + s * 1.15) 0 hbase
  have hclusterlen : cluster.length = ccn := by
    rw [hcluster]
    by_cases h1 : ccn = 1
    · simp [h1]
    · by_cases h2 : 2 ≤ ccn
      · rw [if_neg h1, if_pos h2, ringPoints]
        simp
      · rw [if_neg h1, if_neg h2]
        simp
        omega
  have hclusternorm : ∀ p ∈ cluster, normPt p ≤ centerRadius := by
    intro p hp
    rw [hcluster] at hp
    by_cases h1 : ccn = 1
    · rw [if_pos h1] at hp
      simp only [List.mem_singleton] at hp
      subst hp
      rw [normPt]
      simp
      positivity
    · by_cases h2 : 2 ≤ ccn
      · rw [if_neg h1, if_pos h2] at hp
        rw [ringPoints] at hp
        simp only [List.mem_map, List.mem_range] at hp
        obtain ⟨i, _, hip⟩ := hp
        rw [← hip, normPt_circlePoint hcr0]
      · rw [if_neg h1, if_neg h2] at hp
        simp at hp
  have hclustersp : SpacedList s cluster := by
    rw [hcluster]
    by_cases h1 : ccn = 1
    · rw [if_pos h1]
      simp [SpacedList]
    · by_cases h2 : 2 ≤ ccn
      · rw [if_neg h1, if_pos h2]
        have hcrpos : centerRadius = ((ccn : ℝ) + 1.6) * s / (2 * π) := by
          rw [hcr, if_pos h2]
        have hsinb := cluster_sin_bound ccn h2
        have hsinnn : 0 ≤ Real.sin (π / ccn) := by
          apply Real.sin_nonneg_of_nonneg_of_le_pi
          · positivity
          · rw [div_le_iff₀ (by exact_mod_cast (by omega : 0 < ccn) : (0:ℝ) < (ccn:ℝ))]
            have : (1 : ℝ) ≤ (ccn : ℝ) := by exact_mod_cast (by omega : 1 ≤ ccn)
            nlinarith
        apply ringPoints_spaced 0 hs hcr0 h2
        rw [hcrpos]
        have h2R : 2 * (((ccn : ℝ) + 1.6) * s / (2 * π)) * Real.sin (π / ccn)
            = ((ccn : ℝ) + 1.6) * Real.sin (π / ccn) * s / π := by
          field_simp
          ring
        rw [h2R, le_div_iff₀ hpi]
        nlinarith
      · rw [if_neg h1, if_neg h2]
        simp [SpacedList]
  constructor
  · rw [SpacedList, List.pairwise_append]
    refine ⟨hclustersp, hloopsp, ?_⟩
    intro x hx y hy
    have hnx := hclusternorm x hx
    have hny := hloopnorm y hy
    have := norm_sub_le_dist2 x y
    nlinarith
  · rw [List.length_append, hclusterlen, hlooplen]
    omega

/-- Weakening of the spacing bound. -/
theorem SpacedList.mono {s t : ℝ} (hst : s ≤ t) {ps : List Point} (h : SpacedList t ps) :
    SpacedList s ps :=
  List.Pairwise.imp (fun h' => le_trans hst h') h

/-- Pairwise property of a flatMap from per-group and cross-group bounds. -/
theorem pairwise_flatMap_of {α β : Type} {R : β → β → Prop} {l : List α} {g : α → List β}
    (hin : ∀ a ∈ l, (g a).Pairwise R)
    (hcross : l.Pairwise fun a b => ∀ x ∈ g a, ∀ y ∈ g b, R x y) :
    (l.flatMap g).Pairwise R := by
  induction l with
  | nil => simp
  | cons a t ih =>
    rw [List.flatMap_cons, List.pairwise_append]
    rcases List.pairwise_cons.mp hcross with ⟨hca, hct⟩
    refine ⟨hin a (List.mem_cons_self a t),
      ih (fun b hb => hin b (List.mem_cons_of_mem a hb)) hct, ?_⟩
    intro x hx y hy
    rw [List.mem_flatMap] at hy
    obtain ⟨b, hb, hyb⟩ := hy
    exact hca b hb x hx y hyb

/-- A family of horizontal rows stacked at vertical pitch sp, each row an
arithmetic progression of pitch sp along x, is sp-spaced: two points of one
row differ by at least sp in x, two points of different rows differ by at
least sp in y. -/
theorem vertRows_spaced {sp : ℝ} (hsp : 0 < sp) (n : ℕ) (cnt : ℕ → ℕ) (x0 : ℕ → ℝ)
    (y0 : ℝ) :
    SpacedList sp ((List.range n).flatMap fun (r : ℕ) =>
      (List.range (cnt r)).map fun (c : ℕ) => (x0 r + (c : ℝ) * sp, y0 + (r : ℝ) * sp)) := by
  rw [SpacedList]
  apply pairwise_flatMap_of
  · intro a _
    rw [List.pairwise_iff_getElem]
    intro i j hi hj hij
    simp only [List.length_map, List.length_range] at hi hj
    rw [List.getElem_map, List.getElem_map, List.getElem_range, List.getElem_range]
    have hij1 : (1 : ℝ) ≤ (j : ℝ) - (i : ℝ) := by
      have : (i : ℝ) + 1 ≤ (j : ℝ) := by exact_mod_cast hij
      linarith
    calc sp ≤ |(x0 a + (i : ℝ) * sp) - (x0 a + (j : ℝ) * sp)| := by
          rw [abs_sub_comm]
          rw [le_abs]
          left
          nlinarith
      _ ≤ dist2 (x0 a + (i : ℝ) * sp, y0 + (a : ℝ) * sp)
            (x0 a + (j : ℝ) * sp, y0 + (a : ℝ) * sp) :=
          abs_fst_le_dist2 (x0 a + (i : ℝ) * sp, y0 + (a : ℝ) * sp)
            (x0 a + (j : ℝ) * sp, y0 + (a : ℝ) * sp)
  · apply List.Pairwise.imp ?_ (List.pairwise_lt_range n)
    intro a b hab x hx y hy
    simp only [List.mem_map, List.mem_range] at hx hy
    obtain ⟨c1, _, hx1⟩ := hx
    obtain ⟨c2, _, hy1⟩ := hy
    have hab1 : (1 : ℝ) ≤ (b : ℝ) - (a : ℝ) := by
      have : (a : ℝ) + 1 ≤ (b : ℝ) := by exact_mod_cast hab
      linarith
    calc sp ≤ |x.2 - y.2| := by
          rw [← hx1, ← hy1]
          simp only
          rw [abs_sub_comm, le_abs]
          left
          nlinarith
      _ ≤ dist2 x y := abs_snd_le_dist2 _ _

/-- The transposed version of vertRows_spaced: columns stacked at horizontal
pitch sp, each an arithmetic progression of pitch sp along y. -/
theorem horizCols_spaced {sp : ℝ} (hsp : 0 < sp) (n : ℕ) (cnt : ℕ → ℕ) (y0 : ℕ → ℝ)
    (x0 : ℝ) :
    SpacedList sp ((List.range n).flatMap fun (c : ℕ) =>
      (List.range (cnt c)).map fun (r : ℕ) => (x0 + (c : ℝ) * sp, y0 c + (r : ℝ) * sp)) := by
  rw [SpacedList]
  apply pairwise_flatMap_of
  · intro a _
    rw [List.pairwise_iff_getElem]
    intro i j hi hj hij
    simp only [List.length_map, List.length_range] at hi hj
    rw [List.getElem_map, List.getElem_map, List.getElem_range, List.getElem_range]
    have hij1 : (1 : ℝ) ≤ (j : ℝ) - (i : ℝ) := by
      have : (i : ℝ) + 1 ≤ (j : ℝ) := by exact_mod_cast hij
      linarith
    calc sp ≤ |(y0 a + (i : ℝ) * sp) - (y0 a + (j : ℝ) * sp)| := by
          rw [abs_sub_comm, le_abs]
          left
          nlinarith
      _ ≤ dist2 (x0 + (a : ℝ) * sp, y0 a + (i : ℝ) * sp)
            (x0 + (a : ℝ) * sp, y0 a + (j : ℝ) * sp) :=
          abs_snd_le_dist2 (x0 + (a : ℝ) * sp, y0 a + (i : ℝ) * sp)
            (x0 + (a : ℝ) * sp, y0 a + (j : ℝ) * sp)
  · apply List.Pairwise.imp ?_ (List.pairwise_lt_range n)
    intro a b hab x hx y hy
    simp only [List.mem_map, List.mem_range] at hx hy
    obtain ⟨c1, _, hx1⟩ := hx
    obtain ⟨c2, _, hy1⟩ := hy
    have hab1 : (1 : ℝ) ≤ (b : ℝ) - (a : ℝ) := by
      have : (a : ℝ) + 1 ≤ (b : ℝ) := by exact_mod_cast hab
      linarith
    calc sp ≤ |x.1 - y.1| := by
          rw [← hx1, ← hy1]
          simp only
          rw [abs_sub_comm, le_abs]
          left
          nlinarith
      _ ≤ dist2 x y := abs_fst_le_dist2 _ _

/-- The grid lattice with pitch s * 1.3 is s-spaced. -/
theorem gridLatticePoints_spaced {s : ℝ} (hs : 0 < s) (cols rows : ℕ) :
    SpacedList s (gridLatticePoints cols rows (s * 1.3)) := by
  have h13 : 0 < s * 1.3 := by nlinarith
  apply SpacedList.mono (show s ≤ s * 1.3 by nlinarith)
  rw [gridLatticePoints]
  exact vertRows_spaced h13 rows (fun _ => cols)
    (fun _ => -(((cols : ℝ) - 1) / 2) * (s * 1.3)) (-(((rows : ℝ) - 1) / 2) * (s * 1.3))

/-- The vertical staggered layout with pitch s * 1.3 is s-spaced. -/
theorem staggeredPointsVertical_spaced {s : ℝ} (hs : 0 < s) (config : List ℕ) :
    SpacedList s (staggeredPointsVertical config (s * 1.3)) := by
  have h13 : 0 < s * 1.3 := by nlinarith
  apply SpacedList.mono (show s ≤ s * 1.3 by nlinarith)
  rw [staggeredPointsVertical]
  exact vertRows_spaced h13 config.length (fun r => config.getD r 0)
    (fun r => -(((config.getD r 0 : ℝ) - 1) / 2) * (s * 1.3))
    (-(((config.length : ℝ) - 1) / 2) * (s * 1.3))

/-- The horizontal staggered layout with pitch s * 1.3 is s-spaced. -/
theorem staggeredPointsHorizontal_spaced {s : ℝ} (hs : 0 < s) (config : List ℕ) :
    SpacedList s (staggeredPointsHorizontal config (s * 1.3)) := by
  have h13 : 0 < s * 1.3 := by nlinarith
  apply SpacedList.mono (show s ≤ s * 1.3 by nlinarith)
  rw [staggeredPointsHorizontal]
  exact horizCols_spaced h13 config.length (fun c => config.getD c 0)
    (fun c => -(((config.getD c 0 : ℝ) - 1) / 2) * (s * 1.3))
    (-(((config.length : ℝ) - 1) / 2) * (s * 1.3))

/-- C4: for every count at least 2, every positive unit size and every rng
state, the position list produced by each of the three layout algorithms has
minimum pairwise Euclidean distance at least unitSize. -/
theorem layouts_non_overlap (count : ℕ) (s : ℝ) (f : ℤ → ℝ) (st : ℤ)
    (_hcount : 2 ≤ count) (hs : 0 < s) (hf : ValidStream f) :
    SpacedList s (radialThrusterLayout count s ⟨f, st⟩).1 ∧
    (∀ ps, (gridThrusterLayout count s ⟨f, st⟩).1 = some ps → SpacedList s ps) ∧
    (∀ ps, (offsetGridThrusterLayout count s ⟨f, st⟩).1 = some ps → SpacedList s ps) := by
  refine ⟨(radialThrusterLayout_spec count s f st hs hf).1, ?_, ?_⟩
  · intro ps hps
    by_cases hempty : (findEvenGridConfigurations count).isEmpty = true
    · simp [gridThrusterLayout, hempty] at hps
    · simp only [gridThrusterLayout, hempty, Bool.false_eq_true, if_false,
        Option.some.injEq] at hps
      rw [← hps]
      exact gridLatticePoints_spaced hs _ _
  · intro ps hps
    by_cases hempty : (findStaggeredConfigurations count).isEmpty = true
    · simp [offsetGridThrusterLayout, hempty] at hps
    · simp only [offsetGridThrusterLayout, hempty, Bool.false_eq_true, if_false,
        Option.some.injEq] at hps
      rw [← hps]
      split
      · exact staggeredPointsVertical_spaced hs _
      · exact staggeredPointsHorizontal_spaced hs _

/-- Witness for C4 at count 2, unit size 1, all-zero stream. -/
theorem layouts_non_overlap_witness :
    SpacedList 1 (radialThrusterLayout 2 1 ⟨fun _ => 0, 0⟩).1 ∧
    (∀ ps, (gridThrusterLayout 2 1 ⟨fun _ => 0, 0⟩).1 = some ps → SpacedList 1 ps) ∧
    (∀ ps, (offsetGridThrusterLayout 2 1 ⟨fun _ => 0, 0⟩).1 = some ps → SpacedList 1 ps) :=
  layouts_non_overlap 2 1 (fun _ => 0) 0 (le_refl 2) (by norm_num)
    (fun _ => ⟨le_refl 0, zero_lt_one⟩)

/-! ### Cargo section generator (cargoSection.ts, the file of part_004)

Geometry is tracked through each pod's bounding dimensions and the exact
minimum local z-extent of its mesh, derived from the three.js primitive
constructions in createPod: a box or a rotateX-ed cylinder spans exactly
[-(depth)/2, depth/2] before the translate by depth/2, and the sphere's
rotateY (pi/2) then rotateX (pi/2) maps a vertex at polar angle phi to
z = radius * cos phi, whose minimum -radius is attained at the included
bottom pole, so after the translate by radius the minimum z is exactly 0. -/

/-- Math.cbrt and Math.pow (x, 1/3) on the nonnegative reals. -/
noncomputable def cbrt (x : ℝ) : ℝ := x ^ ((1 : ℝ) / 3)

/-- Minimum of a list, with 0 for the empty list.  The source uses an
Infinity sentinel; every use below is on a nonempty list, where the two
agree. -/
def listMinD : List ℝ → ℝ
  | [] => 0
  | x :: xs => xs.foldl min x

/-- Maximum of a list, with 0 for the empty list (see listMinD). -/
def listMaxD : List ℝ → ℝ
  | [] => 0
  | x :: xs => xs.foldl max x

/-- Minimum z-direction cosine over the N vertices of the regular polygon
cross-section of a three.js CylinderGeometry lying along the y axis. -/
noncomputable def polyMinCos (N : ℕ) : ℝ :=
  listMinD ((List.range N).map fun (j : ℕ) => Real.cos (2 * π * j / N))

/-- The fixed prefabricated pod sizes (Fibonacci-like). -/
def prefabCargoPodVolume : List ℝ := [1, 2, 3, 5, 8, 13, 21, 34, 55, 89, 144]

/-- getClosestPodMass: above mass 200 the exact target is used; otherwise the
prefabricated size closest to the target (first wins ties, scanning from the
head with the first entry as the initial best). -/
noncomputable def getClosestPodMass (targetMass : ℝ) : ℝ :=
  if 200 < targetMass then targetMass
  else
    (prefabCargoPodVolume.drop 1).foldl
      (fun podMass v => if |v - targetMass| < |podMass - targetMass| then v else podMass) 1

/-- howManySegmentsOfCargo: a mass-scale-dependent random segment count. -/
noncomputable def howManySegmentsOfCargo (cargoMass : ℝ) (rng : Rng) : ℤ × Rng :=
  let shipSizeScalar := min 1 (cargoMass / 1000)
  if shipSizeScalar ≤ 0.2 then
    let p := rng.range 1 3
    (⌊p.1⌋, p.2)
  else if shipSizeScalar ≤ 0.4 then
    let p := rng.range 2 5
    (⌊p.1⌋, p.2)
  else if shipSizeScalar ≤ 0.6 then
    let p := rng.range 2 7
    (⌊p.1⌋, p.2)
  else if shipSizeScalar ≤ 0.8 then
    let p := rng.range 2 11
    (⌊p.1⌋, p.2)
  else
    let p := rng.range 2 13
    (⌊p.1⌋, p.2)

/-- howManyPodsPerSegment: a mass-scale-dependent random pod count. -/
noncomputable def howManyPodsPerSegment (cargoMass : ℝ) (rng : Rng) : ℤ × Rng :=
  let shipSizeScalar := min 1 (cargoMass / 1000)
  if shipSizeScalar ≤ 0.3 then
    let p := rng.range 1 2
    (⌊p.1⌋, p.2)
  else if shipSizeScalar ≤ 0.6 then
    let p := rng.range 1 4
    (⌊p.1⌋, p.2)
  else if shipSizeScalar ≤ 0.8 then
    let p := rng.range 2 8
    (⌊p.1⌋, p.2)
  else
    let p := rng.range 2 11
    (⌊p.1⌋, p.2)

/-- generateBoxDimensions: invert volume = w * h * d under the two aspect
draws bottom = w / d and side = w / h. -/
noncomputable def generateBoxDimensions (volume bottom side : ℝ) : ℝ × ℝ × ℝ :=
  let depth := cbrt (volume * side / (bottom * bottom))
  let width := bottom * depth
  let height := width / side
  (width, depth, height)

/-- The tapered cylinder solution used by barrels and command decks:
bigRadius from the closed-form frustum volume, small radius and depth from
the taper and aspect draws. -/
noncomputable def makeTaperedCylinderGeometry (volume aspect taper : ℝ) : ℝ × ℝ × ℝ :=
  let shapeFactor := 1 + taper + taper * taper
  let bigRadius := ((3 * volume) / (π * aspect * shapeFactor)) ^ ((1 : ℝ) / 3)
  (bigRadius * taper, bigRadius, bigRadius * aspect)

/-- The fixed back-aspect and top-aspect pairs for box pods. -/
noncomputable def boxShapes : List (ℝ × ℝ) :=
  [(1 / 2.5, 8 / 9), (8 / 9, 1 / 2.5), (1, 1), (1, 1 / 2), (1 / 2, 1)]

/-- Pod shape families. -/
inductive PodShape : Type
  | box
  | cylinder
  | sphere
  | barrel
deriving DecidableEq

/-- The weighted shape list indexed by floor (random * 6). -/
def podShapes : List PodShape :=
  [PodShape.box, PodShape.box, PodShape.cylinder, PodShape.cylinder,
    PodShape.sphere, PodShape.barrel]

noncomputable def getPodShape (rng : Rng) : PodShape × Rng :=
  let u := rng.rand
  (podShapes.getD (⌊u.1 * 6⌋).toNat PodShape.box, u.2)

/-- The structural output of createPod: bounding dimensions and the exact
minimum local z of the pod's mesh. -/
structure PodOut where
  width : ℝ
  height : ℝ
  depth : ℝ
  minZ : ℝ

/-- createPod: shape-specific mass-to-dimension formulas.  The minimum local
z is 0 for box, cylinder and sphere pods (see the section comment); the
barrel group is offset by its half depth, so its minimum z is depth plus the
possibly negative dip of the crosswise docking cylinder. -/
noncomputable def createPod (mass : ℝ) (shape : PodShape) (rng : Rng) : PodOut × Rng :=
  match shape with
  | PodShape.barrel =>
    let a := rng.range 1 2
    let t := a.2.range 0.4 0.8
    let geo := makeTaperedCylinderGeometry mass a.1 t.1
    let bigRadius := geo.2.1
    let depth := geo.2.2
    let polySegments : ℕ := max 4 (⌊2 * π * bigRadius * 0.6⌋).toNat
    let p := t.2.range 0.1 0.5
    let randomPortSize := p.1 * bigRadius
    -- bottom cone spans [0, depth], top cone [depth, 2 depth]; the crosswise
    -- cylinder's polygonal section spans depth + randomPortSize * polyMinCos
    -- at its lowest; the whole group is then placed at z = depth
    (⟨bigRadius * 2, bigRadius * 2, depth * 2,
      depth + min 0 (depth + randomPortSize * polyMinCos polySegments)⟩, p.2)
  | PodShape.box =>
    let i := rng.range 0 5
    let pair := boxShapes.getD (⌊i.1⌋).toNat (1 / 2.5, 8 / 9)
    let dims := generateBoxDimensions mass pair.1 pair.2
    (⟨dims.1, dims.2.2, dims.2.1, 0⟩, i.2)
  | PodShape.cylinder =>
    let a := rng.range 0.3 0.9
    let podDepth := cbrt (mass / (π * a.1 * a.1))
    let podRadius := a.1 * podDepth
    (⟨podRadius * 2, podRadius * 2, podDepth, 0⟩, a.2)
  | PodShape.sphere =>
    let podRadius := cbrt (3 * mass / (4 * π))
    (⟨podRadius * 2, podRadius * 2, 2 * podRadius, 0⟩, rng)

/-- Layout arrangement of pods within one segment. -/
inductive LayoutKind : Type
  | single
  | radial
  | grid
deriving DecidableEq

/-- The structural output of a segment: bounding dimensions, arrangement and
the minimum local z of the segment mesh. -/
structure SegmentOut where
  width : ℝ
  height : ℝ
  depth : ℝ
  layout : LayoutKind
  minZ : ℝ

/-- layoutRadial of the cargo section: pods on a ring of radius
1.2 * podRadius (two pods) or minRadius + gap, with connector struts from the
axis when the ring radius exceeds the pod radius.  The segment depth is the
loop's running maximum of the identical pod depths, i.e. the pod depth. -/
noncomputable def layoutRadial (pod : PodOut) (podsPerSegment : ℕ) (rng : Rng) :
    SegmentOut × Rng :=
  let podRadius := max pod.width pod.height / 2
  let minRadius := podRadius / Real.sin (π / podsPerSegment)
  let gap := 0.05 * podRadius
  let radius := if podsPerSegment = 2 then podRadius * 1.2 else minRadius + gap
  let rc := rng.rand
  let needsConnectors := podRadius < radius
  let pts : List Point := (List.range podsPerSegment).map fun (i : ℕ) =>
    (Real.cos ((i : ℝ) / podsPerSegment * (2 * π) + π / 2) * radius,
     Real.sin ((i : ℝ) / podsPerSegment * (2 * π) + π / 2) * radius)
  let maxX := listMaxD (pts.map fun q => q.1 + pod.width / 2)
  let minX := listMinD (pts.map fun q => q.1 - pod.width / 2)
  let maxY := listMaxD (pts.map fun q => q.2 + pod.height / 2)
  let minY := listMinD (pts.map fun q => q.2 - pod.height / 2)
  let widthOfConnector := 0.3 + podRadius / 2 * rc.1
  -- each strut is a 4-faceted cylinder along y at z = pod depth / 2, so its
  -- z-extent is exactly +- widthOfConnector; the axial connector spans
  -- [0, pod depth] exactly
  let minZ := if needsConnectors
    then min pod.minZ (min (pod.depth / 2 - widthOfConnector) 0)
    else pod.minZ
  (⟨maxX - minX, maxY - minY, pod.depth, LayoutKind.radial, minZ⟩, rc.2)

/-- The most-square factor pair of the pod count, scanned from rows = 1 as in
the source (strict improvement keeps the earlier best). -/
def bestGridConfig (pods : ℕ) : ℕ × ℕ :=
  ((List.range' 1 pods).filter fun r => r * r ≤ pods).foldl
    (fun best rows =>
      if pods % rows = 0 ∧
          max rows (pods / rows) - min rows (pods / rows) < max best.1 best.2 - min best.1 best.2
      then (rows, pods / rows)
      else best)
    (1, pods)

/-- layoutGrid of the cargo section: the most compact factor grid, pods at
pitch dimension + 10 percent gap; the bounding box is cols, rows times the
pitch and the minimum z is the pod's. -/
noncomputable def layoutGrid (pod : PodOut) (podsPerSegment : ℕ) : SegmentOut :=
  let cfg := bestGridConfig podsPerSegment
  let rows := cfg.1
  let cols := cfg.2
  let gap := 0.1 * max pod.width pod.height
  let totalWidth := (cols : ℝ) * pod.width + ((cols : ℝ) - 1) * gap
  let totalHeight := (rows : ℝ) * pod.height + ((rows : ℝ) - 1) * gap
  ⟨totalWidth, totalHeight, pod.depth, LayoutKind.grid, pod.minZ⟩

/-- makeSegmentMesh: a single pod on the axis, or a random choice between the
radial and grid arrangements. -/
noncomputable def makeSegmentMesh (pod : PodOut) (podsPerSegment : ℕ) (rng : Rng) :
    SegmentOut × Rng :=
  if podsPerSegment = 1 then
    (⟨pod.width, pod.height, pod.depth, LayoutKind.single, pod.minZ⟩, rng)
  else
    let arr := rng.rand
    if arr.1 < 0.5 then layoutRadial pod podsPerSegment arr.2
    else (layoutGrid pod podsPerSegment, arr.2)

/-- The segment-placement loop of makeCargoSection: totalLength starts at the
leading gap, each pass records the clone position and advances by the segment
length plus the gap (the loop guard i < segmentCount always holds inside the
loop, so the gap also follows the last segment). -/
noncomputable def cargoLoop (segmentCount : ℕ) (segmentLength segmentGap : ℝ) :
    List ℝ × ℝ :=
  (List.range segmentCount).foldl
    (fun acc _ => (acc.1 ++ [acc.2], acc.2 + segmentLength + segmentGap))
    ([], segmentGap)

/-- The structural output of makeCargoSection.  mass, length, width, height
and podsPerSegment are the fields returned by the source; the remaining
fields record the named locals of the source body that the verification
speaks about. -/
structure CargoOut where
  mass : ℝ
  length : ℝ
  width : ℝ
  height : ℝ
  podsPerSegment : ℤ
  segmentCount : ℤ
  segmentGap : ℝ
  segmentDepth : ℝ
  podMass : ℝ
  podShape : PodShape
  layout : LayoutKind
  minZ : ℝ

/-- makeCargoSection: segment and pod counts from the target mass, closest
prefabricated pod mass, a pod shape, a pod, an unconditional tunnel gap of
0.01 + random / 20, a segment arrangement, and segmentCount clones along +Z
with a leading gap and a gap after every segment. -/
noncomputable def makeCargoSection (targetCargoMass : ℝ) (rng : Rng) : CargoOut × Rng :=
  let sc := howManySegmentsOfCargo targetCargoMass rng
  let pps := howManyPodsPerSegment targetCargoMass sc.2
  let targetSegmentMass := targetCargoMass / (sc.1 : ℝ)
  let targetPodMass := targetSegmentMass / (pps.1 : ℝ)
  let podMass := getClosestPodMass targetPodMass
  let shp := getPodShape pps.2
  let totalCargoMass := podMass * (pps.1 : ℝ) * (sc.1 : ℝ)
  let rot := shp.2.rand
  let pod := createPod podMass shp.1 rot.2
  let sg := pod.2.rand
  let segmentGap := 0.01 + sg.1 / 20
  let seg := makeSegmentMesh pod.1 pps.1.toNat sg.2
  let segmentLength := seg.1.depth
  let looped := cargoLoop sc.1.toNat segmentLength segmentGap
  (⟨totalCargoMass, looped.2, seg.1.width, seg.1.height, pps.1, sc.1, segmentGap,
    segmentLength, podMass, shp.1, seg.1.layout, listMinD looped.1 + seg.1.minZ⟩, seg.2)

/-! ### Engine block generator (engineBlock.ts, the file of part_002) -/

/-- The structural output of makeEngineBlock.  Both branches author their
geometry with an explicit translate by depth / 2 after (for the cylinder) a
rotateX that aligns the axis with z, so the minimum local z is exactly 0. -/
structure EngineOut where
  length : ℝ
  width : ℝ
  height : ℝ
  minZ : ℝ

/-- makeEngineBlock: pad the thruster bounding box, then either a tapered
cylinder over the thruster ring (depth from the closed-form frustum volume)
or a box over the bounding box (depth = volume / (width * height)). -/
noncomputable def makeEngineBlock (isRadial : Bool) (thrusterPositions : List Point)
    (thrusterSize : ℝ) (engineBlockMass : ℝ) (rng : Rng) : EngineOut × Rng :=
  let bp := rng.rand
  let boundingBoxPaddingScalar := bp.1 * 0.2 + 0.1
  let minX := listMinD (thrusterPositions.map fun q => q.1)
  let maxX := listMaxD (thrusterPositions.map fun q => q.1)
  let minY := listMinD (thrusterPositions.map fun q => q.2)
  let maxY := listMaxD (thrusterPositions.map fun q => q.2)
  let pad := thrusterSize / 2 +
    boundingBoxPaddingScalar * (3 / (thrusterPositions.length : ℝ))
  let width := (maxX + pad) - (minX - pad)
  let height := (maxY + pad) - (minY - pad)
  if isRadial then
    -- maxR starts from 0 in the source, so it is the max of 0 and the radii
    let maxR := thrusterPositions.foldl
      (fun acc q => max acc (Real.sqrt (q.1 * q.1 + q.2 * q.2))) 0
    let engineRadius := maxR + thrusterSize * 0.6
    let c1 := bp.2.rand
    let tp : ℝ × Rng :=
      if c1.1 < 0.5 then
        let c2 := c1.2.rand
        (0.75 + c2.1 * 0.25, c2.2)
      else (1, c1.2)
    let rearRadius := engineRadius + pad
    let forwardRadius := rearRadius * tp.1
    let engineBlockDepth := (3 * engineBlockMass) /
      (π * (forwardRadius * forwardRadius + forwardRadius * rearRadius +
        rearRadius * rearRadius))
    (⟨engineBlockDepth, width, height, 0⟩, tp.2)
  else
    let engineBlockDepth := engineBlockMass / (width * height)
    (⟨engineBlockDepth, width, height, 0⟩, bp.2)

/-! ### Command deck generator (commandDeck.ts, the file of part_003) -/

/-- The window spacing computed by addWindows: window width (capped both by
the available width minus two frames and by the aspect-scaled height 0.12)
plus one frame width, as a function of the face width and the two draws. -/
noncomputable def windowSpacing (w u1 u2 : ℝ) : ℝ :=
  let aspect := 0.5 + u1 * 1.5
  let windowFrameWidth := 0.02 + u2 * 0.05
  min (w - windowFrameWidth * 2) (0.12 * aspect) + windowFrameWidth

/-- floor (availableWidth / windowSpacing). -/
noncomputable def maxRectangles (w u1 u2 : ℝ) : ℤ := ⌊w / windowSpacing w u1 u2⌋

/-- ceil (maxRectangles / 4). -/
noncomputable def minWindows (w u1 u2 : ℝ) : ℤ := ⌈(maxRectangles w u1 u2 : ℝ) / 4⌉

/-- min (21, maxRectangles). -/
noncomputable def maxWindows (w u1 u2 : ℝ) : ℤ := min 21 (maxRectangles w u1 u2)

/-- addWindows: returns the number of windows in the added group, or none
when the detail is silently skipped.  The two skip conditions of the source
are: available height below the window height 0.12, and the computed maximum
window count below the minimum.  When the window spacing is exactly zero the
JavaScript division yields Infinity, so maxRectangles and minWindows are
Infinity, maxWindows is 21 and the comparison 21 < Infinity takes the same
skip branch; the embedding writes that case as an explicit test since the
reals have no Infinity. -/
noncomputable def addWindows (boxWidth boxHeight _boxDepth : ℝ) (rng : Rng) :
    Option ℤ × Rng :=
  if boxHeight < 0.12 then (none, rng)
  else
    let a := rng.rand
    let fr := a.2.rand
    let u1 := a.1
    let u2 := fr.1
    if windowSpacing boxWidth u1 u2 = 0 then (none, fr.2)
    else if maxWindows boxWidth u1 u2 < minWindows boxWidth u1 u2 then (none, fr.2)
    else
      let cnt := fr.2.rand
      let windowCount :=
        ⌊cnt.1 * ((maxWindows boxWidth u1 u2 - minWindows boxWidth u1 u2 + 1 : ℤ) : ℝ)⌋ +
          minWindows boxWidth u1 u2
      let v := cnt.2.rand
      (some windowCount, v.2)

/-- Command deck shape families (box appears twice and cylinder twice in the
weighted list of the source). -/
inductive DeckShape : Type
  | box
  | cylinder
  | hammerhead
  | sphere
deriving DecidableEq

def commandDeckShapes : List DeckShape :=
  [DeckShape.box, DeckShape.box, DeckShape.cylinder, DeckShape.cylinder,
    DeckShape.hammerhead, DeckShape.sphere]

/-- The structural output of makeCommandDeck.  minZ is the exact minimum
local z of the authored geometry: 0 for the box (translate by depth / 2), 0
for the cylinder (rotateX then translate by depth / 2), the polygonal
cross-section minimum for the hammerhead (its cylinder lies along an axis
perpendicular to z), and the tessellated minimum for the sphere. -/
structure DeckOut where
  length : ℝ
  width : ℝ
  height : ℝ
  minZ : ℝ
  shape : DeckShape
  windowCount : Option ℤ

/-- The minimum of sin theta * sin phi over the vertex grid of a three.js
SphereGeometry with ws width and hs height segments (used untransformed by
the sphere command deck, which only translates by the radius). -/
noncomputable def sphereMinUnit (ws hs : ℕ) : ℝ :=
  listMinD ((List.range (ws + 1)).flatMap fun (j : ℕ) =>
    (List.range (hs + 1)).map fun (i : ℕ) =>
      Real.sin (2 * π * j / ws) * Real.sin (π * i / hs))

/-- makeCommandDeck: one of four shape families by a weighted draw, each with
its own mass-to-dimension inversion; the box family also runs addWindows. -/
noncomputable def makeCommandDeck (commandDeckMass : ℝ) (rng : Rng) : DeckOut × Rng :=
  let sh := rng.rand
  let shape := commandDeckShapes.getD (⌊sh.1 * 6⌋).toNat DeckShape.box
  match shape with
  | DeckShape.box =>
    let a1 := sh.2.rand
    let aspectA := 0.1 + 3 * a1.1
    let a2 := a1.2.rand
    let aspectB := 0.1 + 3 * a2.1
    let d0 := cbrt (commandDeckMass / (aspectA * aspectB))
    let d := max 0.3 (min d0 50)
    let deckWidth := aspectA * d
    let deckHeight := aspectB * d
    let w := addWindows deckWidth deckHeight d a2.2
    (⟨d, deckWidth, deckHeight, 0, DeckShape.box, w.1⟩, w.2)
  | DeckShape.cylinder =>
    let c1 := sh.2.rand
    let ar := c1.2.range 1 2
    let tp : ℝ × Rng :=
      if c1.1 < 0.5 then
        let t := ar.2.range 0.1 0.9
        (t.1, t.2)
      else (1, ar.2)
    let geo := makeTaperedCylinderGeometry commandDeckMass ar.1 tp.1
    let bigRadius := geo.2.1
    let depth := geo.2.2
    (⟨depth, bigRadius * 2, bigRadius * 2, 0, DeckShape.cylinder, none⟩, tp.2)
  | DeckShape.hammerhead =>
    let a := sh.2.rand
    let aspect := 0.1 + a.1
    let d := cbrt (commandDeckMass / (π * aspect * aspect))
    let deckRadius := aspect * d
    let cylinderLength := d
    let cylinderDiameter := deckRadius * 2
    let polySegments : ℕ := max 4 (⌊2 * π * deckRadius * 0.7⌋).toNat
    let commandDeckDepth := deckRadius * 2
    let o := a.2.rand
    let wh : ℝ × ℝ :=
      if o.1 < 0.5 then (cylinderDiameter, cylinderLength)
      else (cylinderLength, cylinderDiameter)
    -- the head cylinder lies along an axis perpendicular to z after the
    -- rotations about z, so its z-extent is the polygonal cross-section
    -- translated by commandDeckDepth / 2 = deckRadius
    (⟨commandDeckDepth, wh.1, wh.2,
      deckRadius + deckRadius * polyMinCos polySegments, DeckShape.hammerhead, none⟩, o.2)
  | DeckShape.sphere =>
    let deckRadius := cbrt (3 * commandDeckMass / (4 * π))
    let circumference := 2 * π * deckRadius
    let widthSegments : ℕ := max 4 (⌊circumference * 0.6⌋).toNat
    let heightSegments : ℕ := max 2 (⌊((widthSegments : ℝ) / 2) + 0.5⌋).toNat
    (⟨deckRadius * 2, deckRadius * 2, deckRadius * 2,
      deckRadius + deckRadius * sphereMinUnit widthSegments heightSegments,
      DeckShape.sphere, none⟩, sh.2)

/-! ### Ship assembler (src/shipgen.ts) -/

/-- The four top-level hull sections, in attachment order. -/
inductive SectionKind : Type
  | thrusters
  | engineBlock
  | cargo
  | commandDeck
deriving DecidableEq

/-- The full structural output of one generation: the mass budget, the four
section results, the attachment z of each section (the z position assigned to
its group), the section list in the order the assembler adds the groups to
the ship (kind, attachment z, length), the total length and the centering
translation of the ship group. -/
structure ShipOut where
  shipMassScalar : ℝ
  targetTotalShipMass : ℝ
  commandDeckMass : ℝ
  engineBlockMass : ℝ
  cargoMass : ℝ
  totalShipMass : ℝ
  thrusters : ThrusterOut
  engine : EngineOut
  cargo : CargoOut
  deck : DeckOut
  thrusterZ : ℝ
  engineZ : ℝ
  cargoZ : ℝ
  deckZ : ℝ
  sections : List (SectionKind × ℝ × ℝ)
  totalLength : ℝ
  shipZ : ℝ

/-- The generation pipeline from an already-hashed seed: mass budgeting,
cargo preflight (to read back the realized cargo mass), then thrusters,
engine block, cargo placement and command deck chained along +Z, and the
final centering translation by -totalLength / 2. -/
noncomputable def buildShip (f : ℤ → ℝ) (seedHash : ℤ) : ShipOut :=
  let rng : Rng := ⟨f, seedHash⟩
  let m1 := rng.rand
  let shipMassScalar := m1.1 ^ 4
  let targetTotalShipMass : ℝ := 10 + shipMassScalar * (1000 - 10)
  let maxCommandDeckFraction := 30 * (1 - shipMassScalar / 1.2)
  let cd := m1.2.range 5 maxCommandDeckFraction
  let commandDeckFraction := cd.1 / 100
  let maxEngineBlockFraction := 30 * (1 - shipMassScalar / 1.2)
  let eb := cd.2.range 5 maxEngineBlockFraction
  let engineFraction := eb.1 / 100
  let cargoFraction := 1 - (commandDeckFraction + engineFraction)
  let targetCargoMass := targetTotalShipMass * cargoFraction
  let cargoSection := makeCargoSection targetCargoMass eb.2
  let cargoMass := cargoSection.1.mass
  let commandDeckMass := targetTotalShipMass * commandDeckFraction
  let engineBlockMass := targetTotalShipMass * engineFraction
  let totalShipMass := cargoMass + commandDeckMass + engineBlockMass
  let thrusterSection := makeThrusters totalShipMass cargoSection.2
  let thrusterZ : ℝ := 0
  let attachmentZ1 := thrusterSection.1.length
  let engineBlockSection := makeEngineBlock thrusterSection.1.isRadial
    thrusterSection.1.thrusterPositions thrusterSection.1.thrusterSize
    engineBlockMass thrusterSection.2
  let attachmentZ2 := attachmentZ1 + engineBlockSection.1.length
  let attachmentZ3 := attachmentZ2 + cargoSection.1.length
  let commandDeckSection := makeCommandDeck commandDeckMass engineBlockSection.2
  let endAttachmentPoint := attachmentZ3 + commandDeckSection.1.length
  { shipMassScalar := shipMassScalar
    targetTotalShipMass := targetTotalShipMass
    commandDeckMass := commandDeckMass
    engineBlockMass := engineBlockMass
    cargoMass := cargoMass
    totalShipMass := totalShipMass
    thrusters := thrusterSection.1
    engine := engineBlockSection.1
    cargo := cargoSection.1
    deck := commandDeckSection.1
    thrusterZ := thrusterZ
    engineZ := attachmentZ1
    cargoZ := attachmentZ2
    deckZ := attachmentZ3
    sections := [(SectionKind.thrusters, thrusterZ, thrusterSection.1.length),
      (SectionKind.engineBlock, attachmentZ1, engineBlockSection.1.length),
      (SectionKind.cargo, attachmentZ2, cargoSection.1.length),
      (SectionKind.commandDeck, attachmentZ3, commandDeckSection.1.length)]
    totalLength := endAttachmentPoint
    shipZ := -endAttachmentPoint / 2 }

/-- generateShip: hash the seed string into the SeededRandom state and run
the pipeline. -/
noncomputable def generateShip (seed : String) (f : ℤ → ℝ) : ShipOut :=
  buildShip f (hashCode seed)

/-- C1: the generated structure is a deterministic function of the seed
through the SeededRandom stream hashed from it: two seeds with equal hashes
(in particular, the same seed twice) generate identical structural output --
same sections, dimensions, masses and thruster positions. -/
theorem generateShip_deterministic (f : ℤ → ℝ) (s1 s2 : String)
    (h : hashCode s1 = hashCode s2) : generateShip s1 f = generateShip s2 f := by
  rw [generateShip, generateShip, h]

/-- Witness for C1: the same seed twice. -/
theorem generateShip_deterministic_witness :
    generateShip "spaceship-abc123" (fun _ => 0) =
      generateShip "spaceship-abc123" (fun _ => 0) :=
  generateShip_deterministic (fun _ => 0) "spaceship-abc123" "spaceship-abc123" rfl

/-- C2: after the assembler reads back the realized cargo mass, the
reconciled total satisfies commandDeckMass + engineBlockMass + cargoMass =
totalShipMass exactly, where cargoMass is the realized mass reported by
makeCargoSection: pod mass times pods per segment times segment count. -/
theorem mass_reconciliation (seed : String) (f : ℤ → ℝ) :
    (generateShip seed f).commandDeckMass + (generateShip seed f).engineBlockMass +
        (generateShip seed f).cargoMass = (generateShip seed f).totalShipMass ∧
    (generateShip seed f).cargoMass =
      (generateShip seed f).cargo.podMass *
        ((generateShip seed f).cargo.podsPerSegment : ℝ) *
        ((generateShip seed f).cargo.segmentCount : ℝ) := by
  constructor
  · simp only [generateShip, buildShip]
    ring
  · simp only [generateShip, buildShip, makeCargoSection]

/-- C8: the assembled ship has exactly 4 top-level sections in the order
thrusters, engine block, cargo, command deck; its total length is the sum of
the four section lengths (tunnel gaps are inside the cargo section's length);
and the ship group is translated by -totalLength / 2. -/
theorem assembler_four_sections (seed : String) (f : ℤ → ℝ) :
    (generateShip seed f).sections.map Prod.fst =
      [SectionKind.thrusters, SectionKind.engineBlock, SectionKind.cargo,
        SectionKind.commandDeck] ∧
    (generateShip seed f).sections.length = 4 ∧
    (generateShip seed f).totalLength =
      (generateShip seed f).thrusters.length + (generateShip seed f).engine.length +
        (generateShip seed f).cargo.length + (generateShip seed f).deck.length ∧
    (generateShip seed f).sections =
      [(SectionKind.thrusters, 0, (generateShip seed f).thrusters.length),
       (SectionKind.engineBlock, (generateShip seed f).engineZ,
         (generateShip seed f).engine.length),
       (SectionKind.cargo, (generateShip seed f).cargoZ,
         (generateShip seed f).cargo.length),
       (SectionKind.commandDeck, (generateShip seed f).deckZ,
         (generateShip seed f).deck.length)] ∧
    (generateShip seed f).shipZ = -(generateShip seed f).totalLength / 2 := by
  refine ⟨?_, ?_, ?_, ?_, ?_⟩ <;> simp only [generateShip, buildShip] <;> rfl

/-! ### Stream preservation and generalized draw bounds

Every pipeline operation threads the rng by advancing the seed only; the
trigonometric map component is preserved.  These lemmas let draw bounds be
applied to draws taken from intermediate states. -/

theorem rand_mem (r : Rng) (hv : ValidStream r.f) :
    0 ≤ (r.rand).1 ∧ (r.rand).1 < 1 := hv r.seed

theorem range_mem' (r : Rng) (hv : ValidStream r.f) {lo hi : ℝ} (hlohi : lo ≤ hi) :
    lo ≤ (r.range lo hi).1 ∧ (r.range lo hi).1 ≤ hi := by
  simp only [Rng.range, Rng.rand]
  constructor
  · nlinarith [(hv r.seed).1]
  · nlinarith [(hv r.seed).1, (hv r.seed).2]

theorem range_lt' (r : Rng) (hv : ValidStream r.f) {lo hi : ℝ} (hlohi : lo < hi) :
    (r.range lo hi).1 < hi := by
  simp only [Rng.range, Rng.rand]
  nlinarith [(hv r.seed).1, (hv r.seed).2]

theorem int_mem' (r : Rng) (hv : ValidStream r.f) {lo hi : ℤ} (hlohi : lo ≤ hi) :
    lo ≤ (r.int lo hi).1 ∧ (r.int lo hi).1 ≤ hi := by
  simp only [Rng.int, Rng.range, Rng.rand]
  have h0 := (hv r.seed).1
  have h1 := (hv r.seed).2
  have hcast : (lo : ℝ) ≤ hi := by exact_mod_cast hlohi
  constructor
  · exact Int.le_floor.mpr (by nlinarith)
  · have hfl : ⌊(lo : ℝ) + r.f r.seed * ((hi : ℝ) + 1 - lo)⌋ < hi + 1 :=
      Int.floor_lt.mpr (by push_cast; nlinarith)
    omega

theorem rand_f (r : Rng) : (r.rand).2.f = r.f := rfl

theorem range_f (r : Rng) (lo hi : ℝ) : (r.range lo hi).2.f = r.f := rfl

theorem int_f (r : Rng) (lo hi : ℤ) : (r.int lo hi).2.f = r.f := rfl

theorem radialThrusterLayout_f (n : ℕ) (s : ℝ) (r : Rng) :
    (radialThrusterLayout n s r).2.f = r.f := rfl

theorem gridThrusterLayout_f (n : ℕ) (s : ℝ) (r : Rng) :
    (gridThrusterLayout n s r).2.f = r.f := by
  simp only [gridThrusterLayout]
  split <;> rfl

theorem offsetGridThrusterLayout_f (n : ℕ) (s : ℝ) (r : Rng) :
    (offsetGridThrusterLayout n s r).2.f = r.f := by
  simp only [offsetGridThrusterLayout]
  split <;> rfl

theorem selectThrusterLayout_f (n : ℕ) (s : ℝ) (r : Rng) :
    (selectThrusterLayout n s r).2.f = r.f := by
  simp only [selectThrusterLayout]
  split_ifs <;> (repeat' split) <;>
    simp only [offsetGridThrusterLayout_f, gridThrusterLayout_f,
      radialThrusterLayout_f, rand_f]

theorem makeThrusters_f (m : ℝ) (r : Rng) : (makeThrusters m r).2.f = r.f := by
  simp only [makeThrusters]
  simp only [range_f, rand_f, selectThrusterLayout_f]

theorem makeEngineBlock_f (b : Bool) (ps : List Point) (s m : ℝ) (r : Rng) :
    (makeEngineBlock b ps s m r).2.f = r.f := by
  simp only [makeEngineBlock]
  split_ifs <;> rfl

theorem howManySegmentsOfCargo_f (m : ℝ) (r : Rng) :
    (howManySegmentsOfCargo m r).2.f = r.f := by
  simp only [howManySegmentsOfCargo]
  split_ifs <;> rfl

theorem howManyPodsPerSegment_f (m : ℝ) (r : Rng) :
    (howManyPodsPerSegment m r).2.f = r.f := by
  simp only [howManyPodsPerSegment]
  split_ifs <;> rfl

theorem getPodShape_f (r : Rng) : (getPodShape r).2.f = r.f := rfl

theorem createPod_f (m : ℝ) (shape : PodShape) (r : Rng) :
    (createPod m shape r).2.f = r.f := by
  cases shape <;> rfl

theorem makeSegmentMesh_f (pod : PodOut) (k : ℕ) (r : Rng) :
    (makeSegmentMesh pod k r).2.f = r.f := by
  simp only [makeSegmentMesh]
  split_ifs <;> rfl

theorem makeCargoSection_f (m : ℝ) (r : Rng) : (makeCargoSection m r).2.f = r.f := by
  simp only [makeCargoSection]
  simp only [makeSegmentMesh_f, rand_f, createPod_f, getPodShape_f,
    howManyPodsPerSegment_f, howManySegmentsOfCargo_f]

theorem addWindows_f (w h d : ℝ) (r : Rng) : (addWindows w h d r).2.f = r.f := by
  simp only [addWindows]
  split_ifs <;> rfl

theorem makeCommandDeck_f (m : ℝ) (r : Rng) : (makeCommandDeck m r).2.f = r.f := by
  simp only [makeCommandDeck]
  split
  · simp only [addWindows_f, rand_f]
  · split_ifs <;> rfl
  · rfl
  · rfl

/-! ### Properties of the cargo section (claims C10, C2, C3) -/

/-- Real cast of toNat for integers at least 1. -/
theorem toNat_cast_real {k : ℤ} (h : 1 ≤ k) : ((k.toNat : ℕ) : ℝ) = (k : ℝ) := by
  rw [← Int.cast_natCast, Int.toNat_of_nonneg (by omega)]

/-- Closed form of the segment-placement loop: the i-th clone sits at
gap + i * (length + gap) and the final total is gap + n * (length + gap). -/
theorem cargoLoop_eq (n : ℕ) (d g : ℝ) :
    cargoLoop n d g =
      ((List.range n).map fun (i : ℕ) => g + (i : ℝ) * (d + g), g + n * (d + g)) := by
  induction n with
  | zero => simp [cargoLoop]
  | succ k ih =>
    have hstep : cargoLoop (k + 1) d g =
        ((cargoLoop k d g).1 ++ [(cargoLoop k d g).2],
          (cargoLoop k d g).2 + d + g) := by
      rw [cargoLoop, cargoLoop, List.range_succ, List.foldl_append, List.foldl_cons,
        List.foldl_nil]
    rw [hstep, ih]
    simp only [List.range_succ, List.map_append, List.map_cons, List.map_nil,
      Prod.mk.injEq]
    constructor
    · trivial
    · push_cast
      ring

/-- A fold of min over elements all at least the seed returns the seed. -/
theorem foldl_min_of_le (a : ℝ) (xs : List ℝ) (h : ∀ y ∈ xs, a ≤ y) :
    xs.foldl min a = a := by
  induction xs with
  | nil => rfl
  | cons y ys ih =>
    rw [List.foldl_cons, min_eq_left (h y (List.mem_cons_self y ys))]
    exact ih fun z hz => h z (List.mem_cons_of_mem y hz)

/-- The first clone of the cargo loop sits lowest: the minimum of the clone
positions is the leading gap. -/
theorem listMinD_cargo (n : ℕ) (hn : 1 ≤ n) (d g : ℝ) (hd : 0 ≤ d) (hg : 0 ≤ g) :
    listMinD ((List.range n).map fun (i : ℕ) => g + (i : ℝ) * (d + g)) = g := by
  obtain ⟨k, rfl⟩ : ∃ k, n = k + 1 := ⟨n - 1, by omega⟩
  rw [List.range_succ_eq_map, List.map_cons, List.map_map]
  have h0 : g + ((0 : ℕ) : ℝ) * (d + g) = g := by push_cast; ring
  rw [h0, listMinD]
  apply foldl_min_of_le
  intro y hy
  simp only [List.mem_map, Function.comp] at hy
  obtain ⟨i, _, hi⟩ := hy
  rw [← hi]
  have : (0 : ℝ) ≤ ((Nat.succ i : ℕ) : ℝ) := by positivity
  nlinarith

/-- The result of the closest-prefab fold is the seed or a list member. -/
theorem foldl_closest_mem (t : ℝ) (l : List ℝ) (init : ℝ) :
    l.foldl (fun podMass v => if |v - t| < |podMass - t| then v else podMass) init ∈
      init :: l := by
  induction l generalizing init with
  | nil => simp
  | cons v vs ih =>
    rw [List.foldl_cons]
    rcases List.mem_cons.mp (ih (if |v - t| < |init - t| then v else init)) with h | h
    · rw [h]
      split_ifs
      · simp
      · simp
    · simp [List.mem_cons.mpr (Or.inr (List.mem_cons.mpr (Or.inr h)))]

/-- Every pod mass chosen by getClosestPodMass is positive: above 200 it is
the (positive) target, below it is one of the positive prefabricated sizes. -/
theorem getClosestPodMass_pos (t : ℝ) : 0 < getClosestPodMass t := by
  rw [getClosestPodMass]
  split_ifs with h
  · linarith
  · have hmem := foldl_closest_mem t (prefabCargoPodVolume.drop 1) 1
    have hall : ∀ x ∈ (1 : ℝ) :: prefabCargoPodVolume.drop 1, 0 < x := by
      intro x hx
      simp only [prefabCargoPodVolume, List.drop, List.mem_cons, List.not_mem_nil,
        or_false] at hx
      rcases hx with h | h | h | h | h | h | h | h | h | h | h <;> rw [h] <;> norm_num
    exact hall _ hmem

/-- Floor of a ranged draw is at least 1 when the lower bound is. -/
theorem floor_range_ge_one (r : Rng) (hv : ValidStream r.f) {lo hi : ℝ}
    (h1 : 1 ≤ lo) (h2 : lo ≤ hi) : 1 ≤ ⌊(r.range lo hi).1⌋ :=
  Int.le_floor.mpr (by push_cast; linarith [(range_mem' r hv h2).1])

theorem howManySegmentsOfCargo_ge_one (m : ℝ) (r : Rng) (hv : ValidStream r.f) :
    1 ≤ (howManySegmentsOfCargo m r).1 := by
  simp only [howManySegmentsOfCargo]
  split_ifs <;> exact floor_range_ge_one r hv (by norm_num) (by norm_num)

theorem howManyPodsPerSegment_ge_one (m : ℝ) (r : Rng) (hv : ValidStream r.f) :
    1 ≤ (howManyPodsPerSegment m r).1 := by
  simp only [howManyPodsPerSegment]
  split_ifs <;> exact floor_range_ge_one r hv (by norm_num) (by norm_num)

/-- Every fixed box aspect pair is positive (including the default used by
the out-of-range lookup guard). -/
theorem boxShapes_getD_pos (i : ℕ) :
    0 < (boxShapes.getD i (1 / 2.5, 8 / 9)).1 ∧
      0 < (boxShapes.getD i (1 / 2.5, 8 / 9)).2 := by
  match i with
  | 0 => constructor <;> norm_num [boxShapes, List.getD]
  | 1 => constructor <;> norm_num [boxShapes, List.getD]
  | 2 => constructor <;> norm_num [boxShapes, List.getD]
  | 3 => constructor <;> norm_num [boxShapes, List.getD]
  | 4 => constructor <;> norm_num [boxShapes, List.getD]
  | n + 5 =>
    rw [List.getD_eq_getElem?_getD, List.getElem?_eq_none (by simp [boxShapes])]
    constructor <;> norm_num

/-- Every pod the factory produces has a nonnegative depth. -/
theorem createPod_depth_nonneg (m : ℝ) (hm : 0 ≤ m) (shape : PodShape) (r : Rng)
    (hv : ValidStream r.f) : 0 ≤ (createPod m shape r).1.depth := by
  have hpi := Real.pi_pos
  cases shape with
  | barrel =>
    simp only [createPod, makeTaperedCylinderGeometry]
    have ha := (range_mem' r hv (show (1 : ℝ) ≤ 2 by norm_num)).1
    have hbig : (0 : ℝ) ≤
        (3 * m / (π * (r.range 1 2).1 *
          (1 + ((r.range 1 2).2.range 0.4 0.8).1 +
            ((r.range 1 2).2.range 0.4 0.8).1 * ((r.range 1 2).2.range 0.4 0.8).1))) ^
          ((1 : ℝ) / 3) := by
      apply Real.rpow_nonneg
      apply div_nonneg (by linarith)
      have hsf : 0 ≤ 1 + ((r.range 1 2).2.range 0.4 0.8).1 +
          ((r.range 1 2).2.range 0.4 0.8).1 * ((r.range 1 2).2.range 0.4 0.8).1 := by
        nlinarith [sq_nonneg (((r.range 1 2).2.range 0.4 0.8).1 + 1 / 2)]
      have := mul_nonneg (mul_nonneg (le_of_lt hpi)
        (by linarith : (0 : ℝ) ≤ (r.range 1 2).1)) hsf
      linarith
    nlinarith
  | box =>
    simp only [createPod, generateBoxDimensions, cbrt]
    apply Real.rpow_nonneg
    have hp := boxShapes_getD_pos (⌊(r.range 0 5).1⌋).toNat
    apply div_nonneg
    · nlinarith [hp.2]
    · nlinarith [hp.1]
  | cylinder =>
    simp only [createPod, cbrt]
    apply Real.rpow_nonneg
    apply div_nonneg hm
    have ha := (range_mem' r hv (show (0.3 : ℝ) ≤ 0.9 by norm_num)).1
    have := mul_nonneg (mul_nonneg (le_of_lt hpi)
      (by linarith : (0 : ℝ) ≤ (r.range 0.3 0.9).1))
      (by linarith : (0 : ℝ) ≤ (r.range 0.3 0.9).1)
    linarith
  | sphere =>
    simp only [createPod, cbrt]
    have : (0 : ℝ) ≤ (3 * m / (4 * π)) ^ ((1 : ℝ) / 3) := by
      apply Real.rpow_nonneg
      apply div_nonneg (by linarith)
      linarith
    linarith

/-- Every segment arrangement reports the pod depth as its own. -/
theorem makeSegmentMesh_depth (pod : PodOut) (k : ℕ) (r : Rng) :
    (makeSegmentMesh pod k r).1.depth = pod.depth := by
  simp only [makeSegmentMesh, layoutRadial, layoutGrid]
  split_ifs <;> rfl

/-- A single-pod segment inherits the pod's minimum z. -/
theorem makeSegmentMesh_minZ_one (pod : PodOut) (r : Rng) :
    (makeSegmentMesh pod 1 r).1.minZ = pod.minZ := by
  simp [makeSegmentMesh]

/-- A segment arranged as single comes from the one-pod branch. -/
theorem makeSegmentMesh_layout_single (pod : PodOut) (k : ℕ) (r : Rng)
    (h : (makeSegmentMesh pod k r).1.layout = LayoutKind.single) : k = 1 := by
  by_contra hk
  simp only [makeSegmentMesh, layoutRadial, layoutGrid, hk, if_false] at h
  split_ifs at h

/-- Shared facts about makeCargoSection over any valid stream: the tunnel
gap lies in [0.01, 0.06), the segment count is at least 1, the segment depth
is nonnegative, the total length is count * depth + (count + 1) * gap (hence
nonnegative), and the realized mass is positive. -/
theorem makeCargoSection_core (m : ℝ) (r : Rng) (hv : ValidStream r.f) :
    0.01 ≤ (makeCargoSection m r).1.segmentGap ∧
    (makeCargoSection m r).1.segmentGap < 0.06 ∧
    1 ≤ (makeCargoSection m r).1.segmentCount ∧
    0 ≤ (makeCargoSection m r).1.segmentDepth ∧
    (makeCargoSection m r).1.length =
      ((makeCargoSection m r).1.segmentCount : ℝ) *
        (makeCargoSection m r).1.segmentDepth +
      (((makeCargoSection m r).1.segmentCount : ℝ) + 1) *
        (makeCargoSection m r).1.segmentGap ∧
    0 ≤ (makeCargoSection m r).1.length ∧
    0 < (makeCargoSection m r).1.mass := by
  simp only [makeCargoSection]
  set sc := howManySegmentsOfCargo m r with hsc
  set pps := howManyPodsPerSegment m sc.2 with hpps
  set podMass := getClosestPodMass (m / (sc.1 : ℝ) / (pps.1 : ℝ)) with hpodMass
  set shp := getPodShape pps.2 with hshp
  set rot := shp.2.rand with hrot
  set pod := createPod podMass shp.1 rot.2 with hpod
  set sg := pod.2.rand with hsg
  have hsc1 : 1 ≤ sc.1 := howManySegmentsOfCargo_ge_one m r hv
  have hvsc : ValidStream sc.2.f := by
    rw [hsc, howManySegmentsOfCargo_f]
    exact hv
  have hpps1 : 1 ≤ pps.1 := howManyPodsPerSegment_ge_one m sc.2 hvsc
  have hvpps : ValidStream pps.2.f := by
    rw [hpps, howManyPodsPerSegment_f]
    exact hvsc
  have hvrot : ValidStream rot.2.f := by
    rw [hrot, rand_f, hshp, getPodShape_f]
    exact hvpps
  have hvpod : ValidStream pod.2.f := by
    rw [hpod, createPod_f]
    exact hvrot
  have hgap := rand_mem pod.2 hvpod
  rw [← hsg] at hgap
  have hdep : (makeSegmentMesh pod.1 pps.1.toNat sg.2).1.depth = pod.1.depth :=
    makeSegmentMesh_depth pod.1 pps.1.toNat sg.2
  have hdep0 : 0 ≤ pod.1.depth := by
    rw [hpod]
    exact createPod_depth_nonneg podMass (le_of_lt (getClosestPodMass_pos _)) shp.1
      rot.2 hvrot
  rw [hdep, cargoLoop_eq]
  simp only
  have hcast : ((sc.1.toNat : ℕ) : ℝ) = (sc.1 : ℝ) := toNat_cast_real hsc1
  rw [hcast]
  have hscR : (1 : ℝ) ≤ (sc.1 : ℝ) := by exact_mod_cast hsc1
  have hppsR : (1 : ℝ) ≤ (pps.1 : ℝ) := by exact_mod_cast hpps1
  have hpmPos : 0 < podMass := by
    rw [hpodMass]
    exact getClosestPodMass_pos _
  refine ⟨by linarith [hgap.1], by linarith [hgap.2], hsc1, hdep0, by ring, ?_, ?_⟩
  · nlinarith [hgap.1, hdep0, hscR]
  · exact mul_pos (mul_pos hpmPos (by linarith)) (by linarith)

/-- C10: makeCargoSection always inserts a tunnel gap in [0.01, 0.06): one
leading gap plus one gap after every segment including the last, so the
returned length is segmentCount * segmentDepth + (segmentCount + 1) * gap,
strictly more than the summed segment depths. -/
theorem cargo_unconditional_gap (m : ℝ) (f : ℤ → ℝ) (st : ℤ)
    (_hm : 0 < m) (hf : ValidStream f) :
    0.01 ≤ (makeCargoSection m ⟨f, st⟩).1.segmentGap ∧
    (makeCargoSection m ⟨f, st⟩).1.segmentGap < 0.06 ∧
    (makeCargoSection m ⟨f, st⟩).1.length =
      ((makeCargoSection m ⟨f, st⟩).1.segmentCount : ℝ) *
        (makeCargoSection m ⟨f, st⟩).1.segmentDepth +
      (((makeCargoSection m ⟨f, st⟩).1.segmentCount : ℝ) + 1) *
        (makeCargoSection m ⟨f, st⟩).1.segmentGap ∧
    ((makeCargoSection m ⟨f, st⟩).1.segmentCount : ℝ) *
        (makeCargoSection m ⟨f, st⟩).1.segmentDepth <
      (makeCargoSection m ⟨f, st⟩).1.length := by
  obtain ⟨h1, h2, h3, h4, h5, h6, h7⟩ := makeCargoSection_core m ⟨f, st⟩ hf
  have hscR : (1 : ℝ) ≤ ((makeCargoSection m ⟨f, st⟩).1.segmentCount : ℝ) := by
    exact_mod_cast h3
  refine ⟨h1, h2, h5, ?_⟩
  rw [h5]
  nlinarith [mul_pos (show (0 : ℝ) <
    ((makeCargoSection m ⟨f, st⟩).1.segmentCount : ℝ) + 1 by linarith)
    (show (0 : ℝ) < (makeCargoSection m ⟨f, st⟩).1.segmentGap by linarith)]

/-- Witness for C10 at target mass 1 with the all-zero stream. -/
theorem cargo_unconditional_gap_witness :
    0.01 ≤ (makeCargoSection 1 ⟨fun _ => 0, 0⟩).1.segmentGap ∧
    (makeCargoSection 1 ⟨fun _ => 0, 0⟩).1.segmentGap < 0.06 ∧
    (makeCargoSection 1 ⟨fun _ => 0, 0⟩).1.length =
      ((makeCargoSection 1 ⟨fun _ => 0, 0⟩).1.segmentCount : ℝ) *
        (makeCargoSection 1 ⟨fun _ => 0, 0⟩).1.segmentDepth +
      (((makeCargoSection 1 ⟨fun _ => 0, 0⟩).1.segmentCount : ℝ) + 1) *
        (makeCargoSection 1 ⟨fun _ => 0, 0⟩).1.segmentGap ∧
    ((makeCargoSection 1 ⟨fun _ => 0, 0⟩).1.segmentCount : ℝ) *
        (makeCargoSection 1 ⟨fun _ => 0, 0⟩).1.segmentDepth <
      (makeCargoSection 1 ⟨fun _ => 0, 0⟩).1.length :=
  cargo_unconditional_gap 1 (fun _ => 0) 0 (by norm_num)
    (fun _ => ⟨le_refl 0, zero_lt_one⟩)

/-- C9: addWindows is total and never fails: when the face is too short for
the window height, or the computed maximum window count falls below the
minimum, it returns leaving the parent unchanged; otherwise it adds a window
group whose count lies between the computed minimum and maximum. -/
theorem addWindows_never_throws (w h d : ℝ) (f : ℤ → ℝ) (st : ℤ)
    (hf : ValidStream f) :
    (h < 0.12 → (addWindows w h d ⟨f, st⟩).1 = none) ∧
    (maxWindows w (f st) (f (st + 1)) < minWindows w (f st) (f (st + 1)) →
      ¬h < 0.12 → (addWindows w h d ⟨f, st⟩).1 = none) ∧
    (∀ c, (addWindows w h d ⟨f, st⟩).1 = some c →
      minWindows w (f st) (f (st + 1)) ≤ c ∧ c ≤ maxWindows w (f st) (f (st + 1))) := by
  refine ⟨?_, ?_, ?_⟩
  · intro hh
    simp only [addWindows, if_pos hh]
  · intro hmm hh
    simp only [addWindows, Rng.rand, if_neg hh]
    split_ifs <;> rfl
  · intro c hc
    simp only [addWindows, Rng.rand] at hc
    by_cases hh : h < 0.12
    · rw [if_pos hh] at hc
      simp at hc
    · rw [if_neg hh] at hc
      split_ifs at hc with h1 h2
      simp only [Option.some.injEq] at hc
      set mw : ℤ := maxWindows w (f st) (f (st + 1)) with hmw
      set nw : ℤ := minWindows w (f st) (f (st + 1)) with hnw
      have hminmax : nw ≤ mw := by omega
      have hu := hf (st + 1 + 1)
      have hAR : (1 : ℝ) ≤ ((mw - nw + 1 : ℤ) : ℝ) := by
        exact_mod_cast (by omega : (1 : ℤ) ≤ mw - nw + 1)
      have hfl0 : 0 ≤ ⌊f (st + 1 + 1) * ((mw - nw + 1 : ℤ) : ℝ)⌋ := by
        apply Int.floor_nonneg.mpr
        nlinarith [hu.1]
      have hflK : ⌊f (st + 1 + 1) * ((mw - nw + 1 : ℤ) : ℝ)⌋ < mw - nw + 1 := by
        rw [Int.floor_lt]
        nlinarith [hu.1, hu.2]
      omega

/-! ### Rear-face positions of the four sections (claim C3) -/

/-- A fold of min never exceeds its seed. -/
theorem foldl_min_le_init (xs : List ℝ) : ∀ a : ℝ, xs.foldl min a ≤ a := by
  induction xs with
  | nil => intro a; exact le_refl a
  | cons x ys ih => intro a; exact le_trans (ih (min a x)) (min_le_left a x)

/-- A fold of max is at least its seed. -/
theorem init_le_foldl_max (xs : List ℝ) : ∀ a : ℝ, a ≤ xs.foldl max a := by
  induction xs with
  | nil => intro a; exact le_refl a
  | cons x ys ih => intro a; exact le_trans (le_max_left a x) (ih (max a x))

/-- The default-0 list minimum never exceeds the default-0 list maximum. -/
theorem listMinD_le_listMaxD (l : List ℝ) : listMinD l ≤ listMaxD l := by
  cases l with
  | nil => exact le_refl 0
  | cons x xs => exact le_trans (foldl_min_le_init xs x) (init_le_foldl_max xs x)

/-- The nozzle diameter is nonnegative for every mass and state. -/
theorem makeThrusters_size_nonneg (m : ℝ) (r : Rng) :
    0 ≤ (makeThrusters m r).1.thrusterSize := by
  simp only [makeThrusters]
  positivity

/-- The extruded thruster depth is nonnegative: the nonnegative nozzle size
over a draw taken from [0.5, 4]. -/
theorem makeThrusters_length_nonneg (m : ℝ) (r : Rng) (hv : ValidStream r.f) :
    0 ≤ (makeThrusters m r).1.length := by
  simp only [makeThrusters]
  refine div_nonneg (by positivity) ?_
  refine le_trans (by norm_num) (range_mem' _ ?_ (show (0.5 : ℝ) ≤ 4 by norm_num)).1
  rw [selectThrusterLayout_f, rand_f, range_f]
  exact hv

/-- Whenever at least one thruster was placed, the glow cones put the section
minimum z at min 0 (-(1.25 * thrusterSize)), strictly behind the z = 0 rear
plane for a positive nozzle size. -/
theorem makeThrusters_minZ_glow (m : ℝ) (r : Rng)
    (h : (makeThrusters m r).1.thrusterPositions ≠ []) :
    (makeThrusters m r).1.minZ =
      min 0 (-(1.25 * (makeThrusters m r).1.thrusterSize)) := by
  simp only [makeThrusters] at h ⊢
  rw [if_neg (by simpa using h)]

/-- The closed-form frustum depth is nonnegative: the quadratic
fr * fr + fr * rr + rr * rr is a sum of squares. -/
theorem frustum_depth_nonneg (m fr rr : ℝ) (hm : 0 ≤ m) :
    0 ≤ 3 * m / (π * (fr * fr + fr * rr + rr * rr)) := by
  apply div_nonneg (by linarith)
  have h : 0 ≤ fr * fr + fr * rr + rr * rr := by
    nlinarith [sq_nonneg (fr + rr / 2), sq_nonneg rr]
  nlinarith [Real.pi_pos]

/-- Both engine block branches author their geometry translated by half the
depth after aligning the axis with z, so the rear face sits at exactly 0. -/
theorem makeEngineBlock_minZ (b : Bool) (ps : List Point) (s m : ℝ) (r : Rng) :
    (makeEngineBlock b ps s m r).1.minZ = 0 := by
  simp only [makeEngineBlock]
  split_ifs <;> rfl

/-- The engine block depth is nonnegative in both branches for a nonnegative
mass and thruster size. -/
theorem makeEngineBlock_length_nonneg (b : Bool) (ps : List Point) (s m : ℝ)
    (r : Rng) (hv : ValidStream r.f) (hm : 0 ≤ m) (hs : 0 ≤ s) :
    0 ≤ (makeEngineBlock b ps s m r).1.length := by
  have hbp := (rand_mem r hv).1
  have hpad : 0 ≤ s / 2 + ((Rng.rand r).1 * 0.2 + 0.1) * (3 / (ps.length : ℝ)) := by
    have h3 : (0 : ℝ) ≤ 3 / (ps.length : ℝ) := by positivity
    have hsc : (0 : ℝ) ≤ (Rng.rand r).1 * 0.2 + 0.1 := by linarith
    have := mul_nonneg hsc h3
    linarith
  simp only [makeEngineBlock]
  split_ifs with hb hc
  · exact frustum_depth_nonneg m _ _ hm
  · exact frustum_depth_nonneg m _ _ hm
  · apply div_nonneg hm
    apply mul_nonneg
    · have := listMinD_le_listMaxD (ps.map fun q => q.1)
      linarith
    · have := listMinD_le_listMaxD (ps.map fun q => q.2)
      linarith

/-- The tapered-cylinder depth is nonnegative for a nonnegative volume and
aspect: the shape factor 1 + t + t * t is (t + 1/2)^2 + 3/4. -/
theorem taperedDepth_nonneg (m a t : ℝ) (hm : 0 ≤ m) (ha : 0 ≤ a) :
    0 ≤ (makeTaperedCylinderGeometry m a t).2.2 := by
  simp only [makeTaperedCylinderGeometry]
  apply mul_nonneg _ ha
  apply Real.rpow_nonneg
  apply div_nonneg (by linarith)
  have ht : 0 ≤ 1 + t + t * t := by nlinarith [sq_nonneg (t + 1 / 2)]
  have := mul_nonneg (mul_nonneg Real.pi_pos.le ha) ht
  linarith

/-- Every command deck family reports a nonnegative depth for a nonnegative
mass. -/
theorem makeCommandDeck_length_nonneg (m : ℝ) (r : Rng) (hv : ValidStream r.f)
    (hm : 0 ≤ m) : 0 ≤ (makeCommandDeck m r).1.length := by
  have hpi := Real.pi_pos
  simp only [makeCommandDeck]
  cases hgd : commandDeckShapes.getD (⌊(Rng.rand r).1 * 6⌋).toNat DeckShape.box with
  | box => exact le_trans (by norm_num) (le_max_left 0.3 _)
  | cylinder =>
    refine taperedDepth_nonneg m _ _ hm ?_
    have hvc : ValidStream ((Rng.rand r).2.rand).2.f := by
      rw [rand_f, rand_f]
      exact hv
    linarith [(range_mem' _ hvc (show (1 : ℝ) ≤ 2 by norm_num)).1]
  | hammerhead =>
    have hva : ValidStream (Rng.rand r).2.f := by
      rw [rand_f]
      exact hv
    have ha := (rand_mem _ hva).1
    have hasp : (0 : ℝ) ≤ 0.1 + ((Rng.rand r).2.rand).1 := by linarith
    refine mul_nonneg (mul_nonneg hasp ?_) (by norm_num)
    exact Real.rpow_nonneg (div_nonneg hm
      (mul_nonneg (mul_nonneg hpi.le hasp) hasp)) _
  | sphere =>
    refine mul_nonneg ?_ (by norm_num)
    exact Real.rpow_nonneg (div_nonneg (by linarith) (by linarith)) _

/-- The box and cylinder command decks author their rear face at exactly
local z = 0 (translate by depth / 2, for the cylinder after a rotateX). -/
theorem makeCommandDeck_minZ_flat (m : ℝ) (r : Rng)
    (h : (makeCommandDeck m r).1.shape = DeckShape.box ∨
      (makeCommandDeck m r).1.shape = DeckShape.cylinder) :
    (makeCommandDeck m r).1.minZ = 0 := by
  simp only [makeCommandDeck] at h ⊢
  cases hgd : commandDeckShapes.getD (⌊(Rng.rand r).1 * 6⌋).toNat DeckShape.box with
  | box => rfl
  | cylinder => rfl
  | hammerhead =>
    rw [hgd] at h
    simp at h
  | sphere =>
    rw [hgd] at h
    simp at h

/-- For an on-axis box pod (single layout) the cargo section's minimum local
z is exactly the leading tunnel gap: the pod itself starts at 0 and the first
clone is placed at segmentGap. -/
theorem makeCargoSection_minZ_box_single (m : ℝ) (r : Rng) (hv : ValidStream r.f)
    (hshape : (makeCargoSection m r).1.podShape = PodShape.box)
    (hlay : (makeCargoSection m r).1.layout = LayoutKind.single) :
    (makeCargoSection m r).1.minZ = (makeCargoSection m r).1.segmentGap := by
  simp only [makeCargoSection] at hshape hlay ⊢
  set sc := howManySegmentsOfCargo m r with hsc
  set pps := howManyPodsPerSegment m sc.2 with hpps
  set podMass := getClosestPodMass (m / (sc.1 : ℝ) / (pps.1 : ℝ)) with hpodMass
  set shp := getPodShape pps.2 with hshp
  set rot := shp.2.rand with hrot
  set pod := createPod podMass shp.1 rot.2 with hpod
  set sg := pod.2.rand with hsg
  have hsc1 : 1 ≤ sc.1 := howManySegmentsOfCargo_ge_one m r hv
  have hvsc : ValidStream sc.2.f := by
    rw [hsc, howManySegmentsOfCargo_f]
    exact hv
  have hvpps : ValidStream pps.2.f := by
    rw [hpps, howManyPodsPerSegment_f]
    exact hvsc
  have hvrot : ValidStream rot.2.f := by
    rw [hrot, rand_f, hshp, getPodShape_f]
    exact hvpps
  have hvpod : ValidStream pod.2.f := by
    rw [hpod, createPod_f]
    exact hvrot
  have hgap := rand_mem pod.2 hvpod
  rw [← hsg] at hgap
  have hk : pps.1.toNat = 1 := makeSegmentMesh_layout_single pod.1 pps.1.toNat sg.2 hlay
  rw [hk]
  rw [makeSegmentMesh_depth, makeSegmentMesh_minZ_one]
  have hpm : pod.1.minZ = 0 := by
    rw [hpod, hshape]
    rfl
  have hdep0 : 0 ≤ pod.1.depth := by
    rw [hpod]
    exact createPod_depth_nonneg podMass (le_of_lt (getClosestPodMass_pos _)) shp.1
      rot.2 hvrot
  rw [hpm, add_zero, cargoLoop_eq]
  simp only
  exact listMinD_cargo sc.1.toNat (by omega) pod.1.depth (0.01 + sg.1 / 20) hdep0
    (by linarith [hgap.1])

/-- C3 counterexample: at target cargo mass 100 with the all-zero stream the
cargo section's minimum local z is the leading tunnel gap 1/100, not 0: the
rear face of the cargo section does not sit at local z = 0. -/
theorem cargo_rear_face_not_at_zero :
    (makeCargoSection 100 ⟨fun _ => 0, 0⟩).1.minZ = 1 / 100 ∧
    ((1 : ℝ) / 100) ≠ 0 := by
  have hv : ValidStream ((⟨fun _ => 0, 0⟩ : Rng).f) := fun _ => ⟨le_refl 0, zero_lt_one⟩
  have hshape : (makeCargoSection 100 ⟨fun _ => 0, 0⟩).1.podShape = PodShape.box := by
    simp only [makeCargoSection, howManySegmentsOfCargo, howManyPodsPerSegment,
      getPodShape, Rng.rand, Rng.range, min_def]
    norm_num [podShapes]
  have hlay : (makeCargoSection 100 ⟨fun _ => 0, 0⟩).1.layout = LayoutKind.single := by
    simp only [makeCargoSection, howManySegmentsOfCargo, howManyPodsPerSegment,
      getPodShape, makeSegmentMesh, Rng.rand, Rng.range, min_def]
    norm_num
  have hgap : (makeCargoSection 100 ⟨fun _ => 0, 0⟩).1.segmentGap = 1 / 100 := by
    simp only [makeCargoSection, howManySegmentsOfCargo, howManyPodsPerSegment,
      getPodShape, createPod, podShapes, Rng.rand, Rng.range, min_def]
    norm_num
  refine ⟨?_, by norm_num⟩
  rw [makeCargoSection_minZ_box_single 100 ⟨fun _ => 0, 0⟩ hv hshape hlay, hgap]

/-- C3 (amended): the assembler's attachment z values 0, engineZ, cargoZ,
deckZ, totalLength are monotonically non-decreasing for every seed, and the
engine block and the box and cylinder command decks author their rear face at
exactly local z = 0; but the cargo section's geometry begins at the leading
tunnel gap (its minimum local z equals segmentGap, shown for on-axis box
pods), and a nonempty thruster section extends to -1.25 * thrusterSize behind
its rear plane, so the rear-face-at-0 invariant does not hold for all four
sections. -/
theorem rear_faces_and_contiguity_amended (seed : String) (f : ℤ → ℝ)
    (hf : ValidStream f) :
    (generateShip seed f).thrusterZ = 0 ∧
    (generateShip seed f).thrusterZ ≤ (generateShip seed f).engineZ ∧
    (generateShip seed f).engineZ ≤ (generateShip seed f).cargoZ ∧
    (generateShip seed f).cargoZ ≤ (generateShip seed f).deckZ ∧
    (generateShip seed f).deckZ ≤ (generateShip seed f).totalLength ∧
    (generateShip seed f).engine.minZ = 0 ∧
    (((generateShip seed f).deck.shape = DeckShape.box ∨
      (generateShip seed f).deck.shape = DeckShape.cylinder) →
      (generateShip seed f).deck.minZ = 0) ∧
    ((generateShip seed f).cargo.podShape = PodShape.box →
      (generateShip seed f).cargo.layout = LayoutKind.single →
      (generateShip seed f).cargo.minZ = (generateShip seed f).cargo.segmentGap) ∧
    ((generateShip seed f).thrusters.thrusterPositions ≠ [] →
      (generateShip seed f).thrusters.minZ =
        min 0 (-(1.25 * (generateShip seed f).thrusters.thrusterSize))) := by
  simp only [generateShip, buildShip]
  set m1 := (⟨f, hashCode seed⟩ : Rng).rand with hm1
  set sms := m1.1 ^ 4 with hsms
  set cd := m1.2.range 5 (30 * (1 - sms / 1.2)) with hcd
  set eb := cd.2.range 5 (30 * (1 - sms / 1.2)) with heb
  set tcm := (10 + sms * (1000 - 10)) * (1 - (cd.1 / 100 + eb.1 / 100)) with htcm
  set cs := makeCargoSection tcm eb.2 with hcs
  set tsm := cs.1.mass + (10 + sms * (1000 - 10)) * (cd.1 / 100) +
    (10 + sms * (1000 - 10)) * (eb.1 / 100) with htsm
  set ths := makeThrusters tsm cs.2 with hths
  set ebs := makeEngineBlock ths.1.isRadial ths.1.thrusterPositions
    ths.1.thrusterSize ((10 + sms * (1000 - 10)) * (eb.1 / 100)) ths.2 with hebs
  set cds := makeCommandDeck ((10 + sms * (1000 - 10)) * (cd.1 / 100)) ebs.2 with hcds
  have hv0 : ValidStream ((⟨f, hashCode seed⟩ : Rng).f) := hf
  have hv1 : ValidStream m1.2.f := by
    rw [hm1, rand_f]
    exact hf
  have hv2 : ValidStream cd.2.f := by
    rw [hcd, range_f]
    exact hv1
  have hv3 : ValidStream eb.2.f := by
    rw [heb, range_f]
    exact hv2
  have hv4 : ValidStream cs.2.f := by
    rw [hcs, makeCargoSection_f]
    exact hv3
  have hv5 : ValidStream ths.2.f := by
    rw [hths, makeThrusters_f]
    exact hv4
  have hv6 : ValidStream ebs.2.f := by
    rw [hebs, makeEngineBlock_f]
    exact hv5
  have hu : 0 ≤ m1.1 ∧ m1.1 < 1 := by
    rw [hm1]
    exact rand_mem ⟨f, hashCode seed⟩ hf
  have hsm0 : 0 ≤ sms := by
    rw [hsms]
    exact pow_nonneg hu.1 4
  have hsm1 : sms ≤ 1 := by
    rw [hsms]
    exact pow_le_one₀ hu.1 hu.2.le
  have hfr5 : (5 : ℝ) ≤ 30 * (1 - sms / 1.2) := by
    have h : 30 * (1 - sms / 1.2) = 30 - 25 * sms := by ring
    rw [h]
    linarith
  have hcd5 : 5 ≤ cd.1 := by
    rw [hcd]
    exact (range_mem' m1.2 hv1 hfr5).1
  have heb5 : 5 ≤ eb.1 := by
    rw [heb]
    exact (range_mem' cd.2 hv2 hfr5).1
  have htgt : (0 : ℝ) < 10 + sms * (1000 - 10) := by nlinarith
  have hcm0 : (0 : ℝ) ≤ (10 + sms * (1000 - 10)) * (cd.1 / 100) :=
    mul_nonneg htgt.le (by linarith)
  have hem0 : (0 : ℝ) ≤ (10 + sms * (1000 - 10)) * (eb.1 / 100) :=
    mul_nonneg htgt.le (by linarith)
  have hcargo := makeCargoSection_core tcm eb.2 hv3
  rw [← hcs] at hcargo
  have htsm0 : 0 ≤ tsm := by
    rw [htsm]
    linarith [hcargo.2.2.2.2.2.2]
  have hthl : 0 ≤ ths.1.length := by
    rw [hths]
    exact makeThrusters_length_nonneg tsm cs.2 hv4
  have hths0 : 0 ≤ ths.1.thrusterSize := by
    rw [hths]
    exact makeThrusters_size_nonneg tsm cs.2
  have hebl : 0 ≤ ebs.1.length := by
    rw [hebs]
    exact makeEngineBlock_length_nonneg ths.1.isRadial ths.1.thrusterPositions
      ths.1.thrusterSize ((10 + sms * (1000 - 10)) * (eb.1 / 100)) ths.2 hv5 hem0 hths0
  have hcsl : 0 ≤ cs.1.length := hcargo.2.2.2.2.2.1
  have hcdl : 0 ≤ cds.1.length := by
    rw [hcds]
    exact makeCommandDeck_length_nonneg ((10 + sms * (1000 - 10)) * (cd.1 / 100))
      ebs.2 hv6 hcm0
  refine ⟨by trivial, by linarith, by linarith, by linarith, by linarith, ?_, ?_, ?_, ?_⟩
  · rw [hebs]
    exact makeEngineBlock_minZ ths.1.isRadial ths.1.thrusterPositions
      ths.1.thrusterSize ((10 + sms * (1000 - 10)) * (eb.1 / 100)) ths.2
  · intro h
    rw [hcds] at h ⊢
    exact makeCommandDeck_minZ_flat ((10 + sms * (1000 - 10)) * (cd.1 / 100)) ebs.2 h
  · intro h1 h2
    rw [hcs] at h1 h2 ⊢
    exact makeCargoSection_minZ_box_single tcm eb.2 hv3 h1 h2
  · intro h
    rw [hths] at h ⊢
    exact makeThrusters_minZ_glow tsm cs.2 h

/-- Witness for the amended C3 at the seed "a" with the all-zero stream. -/
theorem rear_faces_and_contiguity_amended_witness :
    (generateShip "a" (fun _ => 0)).thrusterZ = 0 ∧
    (generateShip "a" (fun _ => 0)).thrusterZ ≤ (generateShip "a" (fun _ => 0)).engineZ ∧
    (generateShip "a" (fun _ => 0)).engineZ ≤ (generateShip "a" (fun _ => 0)).cargoZ ∧
    (generateShip "a" (fun _ => 0)).cargoZ ≤ (generateShip "a" (fun _ => 0)).deckZ ∧
    (generateShip "a" (fun _ => 0)).deckZ ≤ (generateShip "a" (fun _ => 0)).totalLength ∧
    (generateShip "a" (fun _ => 0)).engine.minZ = 0 ∧
    (((generateShip "a" (fun _ => 0)).deck.shape = DeckShape.box ∨
      (generateShip "a" (fun _ => 0)).deck.shape = DeckShape.cylinder) →
      (generateShip "a" (fun _ => 0)).deck.minZ = 0) ∧
    ((generateShip "a" (fun _ => 0)).cargo.podShape = PodShape.box →
      (generateShip "a" (fun _ => 0)).cargo.layout = LayoutKind.single →
      (generateShip "a" (fun _ => 0)).cargo.minZ =
        (generateShip "a" (fun _ => 0)).cargo.segmentGap) ∧
    ((generateShip "a" (fun _ => 0)).thrusters.thrusterPositions ≠ [] →
      (generateShip "a" (fun _ => 0)).thrusters.minZ =
        min 0 (-(1.25 * (generateShip "a" (fun _ => 0)).thrusters.thrusterSize))) :=
  rear_faces_and_contiguity_amended "a" (fun _ => 0)
    (fun _ => ⟨le_refl 0, zero_lt_one⟩)

/-- Witness for C9 on a unit face with the all-zero stream. -/
theorem addWindows_never_throws_witness :
    ((1 : ℝ) < 0.12 → (addWindows 1 1 1 ⟨fun _ => 0, 0⟩).1 = none) ∧
    (maxWindows 1 ((fun (_ : ℤ) => (0:ℝ)) 0) ((fun (_ : ℤ) => (0:ℝ)) (0 + 1)) <
        minWindows 1 ((fun (_ : ℤ) => (0:ℝ)) 0) ((fun (_ : ℤ) => (0:ℝ)) (0 + 1)) →
      ¬(1 : ℝ) < 0.12 → (addWindows 1 1 1 ⟨fun _ => 0, 0⟩).1 = none) ∧
    (∀ c, (addWindows 1 1 1 ⟨fun _ => 0, 0⟩).1 = some c →
      minWindows 1 ((fun (_ : ℤ) => (0:ℝ)) 0) ((fun (_ : ℤ) => (0:ℝ)) (0 + 1)) ≤ c ∧
        c ≤ maxWindows 1 ((fun (_ : ℤ) => (0:ℝ)) 0) ((fun (_ : ℤ) => (0:ℝ)) (0 + 1))) :=
  addWindows_never_throws 1 1 1 (fun _ => 0) 0 (fun _ => ⟨le_refl 0, zero_lt_one⟩)

end Spaceship
